import Mathlib

/-!
# Verification of the masonry stride planner and bond-pattern layout generator

This development shallowly embeds `src/utils/strideCalculator.ts` (the stride
planner `calculateWallStrides` with its support test `isBrickSupported`) and the
bond generator `generateInitialBrickLayout` from `src/utils/bondGenerator.ts`.

Modelling conventions:
* JavaScript numbers (all geometry is in millimetres) are modelled as exact
  rationals `ℚ`.
* The JS `Set<string>` of placed brick ids is modelled as a duplicate-free
  `List String` (append-if-absent insertion); its observable operations are
  membership (`has`) and `size` (= list length).
* `Record<number, StrideMeta>` is modelled as an association list
  `List (ℕ × StrideMeta)` to which the planner appends `(strideIndexCounter, meta)`.
* `Array.prototype.sort` with a numeric comparator is (per the ECMAScript spec)
  a stable sort wrt the comparator's non-strict order; it is modelled by the
  stable `List.insertionSort` over the corresponding total preorder.
* The `while` loop of the planner is modelled with an explicit iteration budget
  (`fuel`); the planner is run with fuel `allWallBricks.length`, and the
  completeness theorem proves this budget is never exhausted (each iteration
  commits at least one brick), so the embedding agrees with the unbounded loop.
-/

namespace Masonry

/-- `FULL_BRICK_LENGTH = 210` (mm). -/
def FULL_BRICK_LENGTH : ℚ := 210

/-- `HALF_BRICK_LENGTH = 100` (mm). -/
def HALF_BRICK_LENGTH : ℚ := 100

/-- `BRICK_HEIGHT = 50` (mm). -/
def BRICK_HEIGHT : ℚ := 50

/-- `HEAD_JOINT = 10` (mm). -/
def HEAD_JOINT : ℚ := 10

/-- `COURSE_HEIGHT = 62.5` (mm, brick height + bed joint). -/
def COURSE_HEIGHT : ℚ := 62.5

/-- `CUSTOM_BRICK_ECB1_LENGTH = 40` (mm). -/
def CUSTOM_BRICK_ECB1_LENGTH : ℚ := 40

/-- `CUSTOM_BRICK_FLEMISH_HEADER_LENGTH = 45` (mm). -/
def CUSTOM_BRICK_FLEMISH_HEADER_LENGTH : ℚ := 45

/-- The three bond types of `bondGenerator.ts`. -/
inductive BondType
  | stretcher
  | english_cross
  | flemish
deriving DecidableEq

/-- The brick types of `bondGenerator.ts`. -/
inductive BrickType
  | full
  | half
  | custom_40
  | custom_end
  | custom_45
deriving DecidableEq

/-- The `Brick` interface of `bondGenerator.ts`. -/
structure Brick where
  x : ℚ
  y : ℚ
  type : BrickType
  length : ℚ
  strideIndex : ℤ
  orderInStride : ℤ
  id : String
deriving DecidableEq

/-- The `StrideMeta` interface of `strideCalculator.ts` (envelope rectangle). -/
structure StrideMeta where
  minX : ℚ
  minY : ℚ
  maxX : ℚ
  maxY : ℚ
deriving DecidableEq

/-- `type Stride = Brick[]`. -/
abbrev Stride := List Brick

/-- Comparator order used for `supportingBricksBelow.sort((a, b) => a.x - b.x)`. -/
def supportOrder (a b : Brick) : Prop := a.x ≤ b.x

instance : DecidableRel supportOrder :=
  fun a b => inferInstanceAs (Decidable (a.x ≤ b.x))

instance : IsTotal Brick supportOrder := ⟨fun a b => le_total a.x b.x⟩

instance : IsTrans Brick supportOrder := ⟨fun _ _ _ => le_trans⟩

/-- Comparator order used for the admission sort
`(a, b) => a.y !== b.y ? a.y - b.y : a.x - b.x` (course ascending, then x ascending). -/
def admissionOrder (a b : Brick) : Prop := a.y < b.y ∨ (a.y = b.y ∧ a.x ≤ b.x)

instance : DecidableRel admissionOrder :=
  fun a b => inferInstanceAs (Decidable (a.y < b.y ∨ (a.y = b.y ∧ a.x ≤ b.x)))

instance : IsTotal Brick admissionOrder := by
  constructor
  intro a b
  rcases lt_trichotomy a.y b.y with h | h | h
  · exact Or.inl (Or.inl h)
  · rcases le_total a.x b.x with hx | hx
    · exact Or.inl (Or.inr ⟨h, hx⟩)
    · exact Or.inr (Or.inr ⟨h.symm, hx⟩)
  · exact Or.inr (Or.inl h)

instance : IsTrans Brick admissionOrder := by
  constructor
  rintro a b c (h₁ | ⟨h₁, hx₁⟩) (h₂ | ⟨h₂, hx₂⟩)
  · exact Or.inl (h₁.trans h₂)
  · exact Or.inl (h₂ ▸ h₁)
  · exact Or.inl (h₁ ▸ h₂)
  · exact Or.inr ⟨h₁.trans h₂, hx₁.trans hx₂⟩

/-- Comparator order used for `Array.from(candidateRobotStartXSet).sort((a, b) => a - b)`. -/
def ratOrder (a b : ℚ) : Prop := a ≤ b

instance : DecidableRel ratOrder := fun a b => inferInstanceAs (Decidable (a ≤ b))

instance : IsTotal ℚ ratOrder := ⟨le_total⟩

instance : IsTrans ℚ ratOrder := ⟨fun _ _ _ => le_trans⟩

/-- The filter of `isBrickSupported`: a candidate supporting brick must sit in
the course directly below, horizontally overlap the brick, and be globally
placed or already tentatively admitted in the current stride. -/
def isSupportCandidate (brick : Brick) (globallyPlacedBricks : List String)
    (bricksAlreadyInCurrentStride : List Brick) (c : Brick) : Bool :=
  decide (c.y = brick.y - COURSE_HEIGHT) &&
  (decide (c.x < brick.x + brick.length) && decide (brick.x < c.x + c.length)) &&
  (globallyPlacedBricks.contains c.id ||
    bricksAlreadyInCurrentStride.any (fun b => b.id == c.id))

/-- `isBrickSupported` from `strideCalculator.ts`: a brick at course 0 is always
supported; otherwise the committed-or-tentative bricks of the course directly
below that horizontally overlap it must contribute a summed overlap length of at
least `0.9 * brick.length`. -/
def isBrickSupported (brick : Brick) (globallyPlacedBricks : List String)
    (bricksAlreadyInCurrentStride : List Brick) (allWallBricks : List Brick) : Bool :=
  if brick.y = 0 then true else
  let brickEndX := brick.x + brick.length
  let supportingBricksBelow := allWallBricks.filter
    (isSupportCandidate brick globallyPlacedBricks bricksAlreadyInCurrentStride)
  let sortedActualSupports := supportingBricksBelow.insertionSort supportOrder
  let totalActualSupportLength := sortedActualSupports.foldl (fun acc support =>
    let overlapStart := max support.x brick.x
    let overlapEnd := min (support.x + support.length) brickEndX
    if overlapStart < overlapEnd then acc + (overlapEnd - overlapStart) else acc) 0
  decide (brick.length * (9 / 10) ≤ totalActualSupportLength)

/-- The bricks of `unplacedBricks` that lie entirely inside the candidate
envelope `(candidateStartX, candidateStartY) .. (+envWidth, +envHeight)`
(`horizontallyReachableUnplaced` in the source). -/
def reachableBricks (envWidth envHeight : ℚ) (unplacedBricks : List Brick)
    (candidateStartX candidateStartY : ℚ) : List Brick :=
  unplacedBricks.filter (fun b =>
    decide (candidateStartX ≤ b.x) &&
    decide (b.x + b.length ≤ candidateStartX + envWidth) &&
    decide (candidateStartY ≤ b.y) &&
    decide (b.y + BRICK_HEIGHT ≤ candidateStartY + envHeight))

/-- One candidate evaluation of the planner: sort the reachable bricks by
(course, x) and admit them one at a time subject to the support test
(`tempCurrentStrideAttempt` in the source). -/
def attemptForCandidate (allWallBricks : List Brick) (envWidth envHeight : ℚ)
    (globallyPlacedBrickIds : List String) (unplacedBricks : List Brick)
    (candidateStartX candidateStartY : ℚ) : List Brick :=
  let potentialBricksForOption :=
    (reachableBricks envWidth envHeight unplacedBricks candidateStartX candidateStartY).insertionSort
      admissionOrder
  potentialBricksForOption.foldl (fun tempCurrentStrideAttempt potentialBrick =>
    if isBrickSupported potentialBrick globallyPlacedBrickIds tempCurrentStrideAttempt allWallBricks
    then tempCurrentStrideAttempt ++ [potentialBrick]
    else tempCurrentStrideAttempt) []

/-- `bestStrideOption` record of the source loop. -/
structure StrideOption where
  startX : ℚ
  startY : ℚ
  bricks : List Brick
  count : ℤ
deriving DecidableEq

/-- `unplacedBricks.reduce((min, b) => Math.min(min, b.y), Infinity)`: the
minimum `y` of the list; the `Infinity` seed is only observable for an empty
list, which the loop guard excludes (we return `0` there). -/
def bottomMostYOf : List Brick → ℚ
  | [] => 0
  | b :: rest => rest.foldl (fun m c => min m c.y) b.y

/-- JS `Set.add`: append the value if it is not already present. -/
def setAdd (s : List ℚ) (v : ℚ) : List ℚ :=
  if s.contains v then s else s ++ [v]

/-- The candidate envelope start-X positions: two clamped candidates per
unplaced brick of the bottom-most course, deduplicated (a JS `Set`) and sorted
ascending. -/
def candidateRobotStartXPositions (unplacedBricks : List Brick)
    (bottomMostY envWidth wallWidth : ℚ) : List ℚ :=
  let candidateRobotStartXSet :=
    (unplacedBricks.filter (fun b => decide (b.y = bottomMostY))).foldl (fun s brick =>
      setAdd (setAdd s (max 0 (min brick.x (wallWidth - envWidth))))
        (max 0 (min (brick.x + brick.length - envWidth) (wallWidth - envWidth)))) []
  candidateRobotStartXSet.insertionSort ratOrder

/-- The stride option produced by evaluating one candidate start-X: its
admitted bricks together with the candidate's envelope anchor and count. -/
def candidateStrideOption (allWallBricks : List Brick) (envWidth envHeight : ℚ)
    (globallyPlacedBrickIds : List String) (unplacedBricks : List Brick)
    (bottomMostY candidateStartX : ℚ) : StrideOption :=
  let attempt := attemptForCandidate allWallBricks envWidth envHeight globallyPlacedBrickIds
    unplacedBricks candidateStartX bottomMostY
  { startX := candidateStartX, startY := bottomMostY,
    bricks := attempt, count := (attempt.length : ℤ) }

/-- One iteration's choice of stride: evaluate every candidate start-X at the
bottom-most unplaced course, keep the first candidate with the strictly largest
admitted count, and fall back to a singleton stride of `unplacedBricks[0]` when
the best candidate admits nothing. -/
def strideStepOption (allWallBricks : List Brick) (envWidth envHeight wallWidth : ℚ)
    (globallyPlacedBrickIds : List String) (unplacedBricks : List Brick) : StrideOption :=
  let bottomMostY := bottomMostYOf unplacedBricks
  let cands := candidateRobotStartXPositions unplacedBricks bottomMostY envWidth wallWidth
  let best := cands.foldl (fun best candidateStartX =>
    if best.count < (candidateStrideOption allWallBricks envWidth envHeight
        globallyPlacedBrickIds unplacedBricks bottomMostY candidateStartX).count then
      candidateStrideOption allWallBricks envWidth envHeight globallyPlacedBrickIds
        unplacedBricks bottomMostY candidateStartX
    else best)
    { startX := -1, startY := -1, bricks := [], count := -1 }
  if best.count ≤ 0 then
    match unplacedBricks with
    | [] => best
    | fallbackBrick :: _ =>
      { startX := max 0 (min fallbackBrick.x (wallWidth - envWidth)),
        startY := fallbackBrick.y,
        bricks := [fallbackBrick], count := 1 }
  else best

/-- Committing a stride: copy each chosen brick (`{ ...b }`), overwrite
`strideIndex` with the current counter, then overwrite each copy's
`orderInStride` with its position in the stride. -/
def commitStride (bricks : List Brick) (strideIndexCounter : ℕ) : List Brick :=
  let withStride := bricks.map (fun b => { b with strideIndex := (strideIndexCounter : ℤ) })
  withStride.enum.map (fun p => { p.2 with orderInStride := (p.1 : ℤ) })

/-- Adding the ids of the committed bricks to the `globallyPlacedBrickIds` set. -/
def addPlaced (placed : List String) (bricks : List Brick) : List String :=
  bricks.foldl (fun s b => if s.contains b.id then s else s ++ [b.id]) placed

/-- The planner's `while` loop, with an explicit iteration budget `fuel`.
Each iteration recomputes the unplaced bricks, chooses a stride option,
commits it (if non-empty, as the source guards), records the envelope under the
current stride index, and repeats. -/
def planLoop (allWallBricks : List Brick) (envWidth envHeight wallWidth : ℚ) :
    ℕ → List String → List Stride → List (ℕ × StrideMeta) → ℕ →
    List Stride × List (ℕ × StrideMeta)
  | 0, _, strides, envs, _ => (strides, envs)
  | fuel + 1, placed, strides, envs, ctr =>
    if placed.length < allWallBricks.length then
      let unplaced := allWallBricks.filter (fun b => !placed.contains b.id)
      if unplaced.length = 0 then (strides, envs)
      else
        let best := strideStepOption allWallBricks envWidth envHeight wallWidth placed unplaced
        let finalCurrentStride := commitStride best.bricks ctr
        if 0 < finalCurrentStride.length then
          planLoop allWallBricks envWidth envHeight wallWidth fuel
            (addPlaced placed finalCurrentStride)
            (strides ++ [finalCurrentStride])
            (envs ++ [(ctr, { minX := best.startX, minY := best.startY,
                              maxX := best.startX + envWidth,
                              maxY := best.startY + envHeight })])
            (ctr + 1)
        else
          planLoop allWallBricks envWidth envHeight wallWidth fuel placed strides envs ctr
    else (strides, envs)

/-- `calculateWallStrides` from `strideCalculator.ts`. The loop is bounded by
the total brick count (each iteration commits at least one brick), so running
the loop with budget `allWallBricks.length` is the exact `while` loop. -/
def calculateWallStrides (allWallBricks : List Brick) (envWidth envHeight wallWidth : ℚ) :
    List Stride × List (ℕ × StrideMeta) :=
  planLoop allWallBricks envWidth envHeight wallWidth allWallBricks.length [] [] [] 0

/-- Brick ids `brick-${courseIndex}-${brickInCourseIndex}`. -/
def mkBrickId (courseIndex brickInCourseIndex : ℕ) : String :=
  "brick-" ++ toString courseIndex ++ "-" ++ toString brickInCourseIndex

/-- Brick selection for one step of a stretcher course: odd courses start with
a half brick, otherwise lay full bricks, degrading to half and then to a cut
piece spanning the exact remaining length. -/
def stretcherChoose (isEvenCourse : Bool) (remainingRowLength : ℚ)
    (brickInCourseIndex : ℕ) : BrickType × ℚ :=
  let startWithHalf := !isEvenCourse && brickInCourseIndex == 0
  if startWithHalf then
    if HALF_BRICK_LENGTH ≤ remainingRowLength then (BrickType.half, HALF_BRICK_LENGTH)
    else (BrickType.custom_end, remainingRowLength)
  else
    if FULL_BRICK_LENGTH ≤ remainingRowLength then (BrickType.full, FULL_BRICK_LENGTH)
    else if HALF_BRICK_LENGTH ≤ remainingRowLength then (BrickType.half, HALF_BRICK_LENGTH)
    else (BrickType.custom_end, remainingRowLength)

/-- Brick selection for one step of an English cross bond course
(4-course repeating pattern). -/
def englishCrossChoose (patternType : ℕ) (remainingRowLength : ℚ)
    (brickInCourseIndex : ℕ) : BrickType × ℚ :=
  if patternType = 0 then
    if FULL_BRICK_LENGTH ≤ remainingRowLength then (BrickType.full, FULL_BRICK_LENGTH)
    else if HALF_BRICK_LENGTH ≤ remainingRowLength then (BrickType.half, HALF_BRICK_LENGTH)
    else (BrickType.custom_end, remainingRowLength)
  else if patternType = 1 ∨ patternType = 3 then
    if brickInCourseIndex = 0 then
      if CUSTOM_BRICK_ECB1_LENGTH ≤ remainingRowLength then
        (BrickType.custom_40, CUSTOM_BRICK_ECB1_LENGTH)
      else (BrickType.custom_end, remainingRowLength)
    else
      if HALF_BRICK_LENGTH ≤ remainingRowLength then (BrickType.half, HALF_BRICK_LENGTH)
      else (BrickType.custom_end, remainingRowLength)
  else
    if brickInCourseIndex = 0 then
      if HALF_BRICK_LENGTH ≤ remainingRowLength then (BrickType.half, HALF_BRICK_LENGTH)
      else (BrickType.custom_end, remainingRowLength)
    else
      if FULL_BRICK_LENGTH ≤ remainingRowLength then (BrickType.full, FULL_BRICK_LENGTH)
      else if HALF_BRICK_LENGTH ≤ remainingRowLength then (BrickType.half, HALF_BRICK_LENGTH)
      else (BrickType.custom_end, remainingRowLength)

/-- Brick selection for one step of a Flemish bond course. -/
def flemishChoose (isLine1Pattern : Bool) (remainingRowLength : ℚ)
    (brickInCourseIndex : ℕ) : BrickType × ℚ :=
  if isLine1Pattern then
    if brickInCourseIndex % 2 = 0 then
      if FULL_BRICK_LENGTH ≤ remainingRowLength then (BrickType.full, FULL_BRICK_LENGTH)
      else if HALF_BRICK_LENGTH ≤ remainingRowLength then (BrickType.half, HALF_BRICK_LENGTH)
      else (BrickType.custom_end, remainingRowLength)
    else
      if HALF_BRICK_LENGTH ≤ remainingRowLength then (BrickType.half, HALF_BRICK_LENGTH)
      else (BrickType.custom_end, remainingRowLength)
  else
    if brickInCourseIndex = 0 then
      if CUSTOM_BRICK_FLEMISH_HEADER_LENGTH ≤ remainingRowLength then
        (BrickType.custom_45, CUSTOM_BRICK_FLEMISH_HEADER_LENGTH)
      else (BrickType.custom_end, remainingRowLength)
    else
      if (brickInCourseIndex - 1) % 2 = 0 then
        if HALF_BRICK_LENGTH ≤ remainingRowLength then (BrickType.half, HALF_BRICK_LENGTH)
        else (BrickType.custom_end, remainingRowLength)
      else
        if FULL_BRICK_LENGTH ≤ remainingRowLength then (BrickType.full, FULL_BRICK_LENGTH)
        else if HALF_BRICK_LENGTH ≤ remainingRowLength then (BrickType.half, HALF_BRICK_LENGTH)
        else (BrickType.custom_end, remainingRowLength)

/-- The per-course `while (currentX < wallWidth)` loop of
`generateInitialBrickLayout`, with an explicit iteration budget. Every bond
branch shares this skeleton: pick a brick for the remaining row length, emit
it, and advance the cursor by the brick length plus a head joint (the joint is
omitted when the brick reaches or passes the wall edge). In the source
`brickToPlace` is never `null` (every selection path assigns a brick), so the
`else break` is not modelled. -/
def layCourseFuel (choose : ℚ → ℕ → BrickType × ℚ) (wallWidth y : ℚ) (courseIndex : ℕ) :
    ℕ → ℚ → ℕ → List Brick
  | 0, _, _ => []
  | fuel + 1, currentX, brickInCourseIndex =>
    if currentX < wallWidth then
      let remainingRowLength := wallWidth - currentX
      if remainingRowLength ≤ 0 then [] else
      let brickToPlace := choose remainingRowLength brickInCourseIndex
      let brick : Brick :=
        { x := currentX, y := y, type := brickToPlace.1, length := brickToPlace.2,
          strideIndex := -1, orderInStride := -1,
          id := mkBrickId courseIndex brickInCourseIndex }
      if currentX + brickToPlace.2 < wallWidth then
        brick :: layCourseFuel choose wallWidth y courseIndex fuel
          (currentX + brickToPlace.2 + HEAD_JOINT) (brickInCourseIndex + 1)
      else
        brick :: layCourseFuel choose wallWidth y courseIndex fuel
          (currentX + brickToPlace.2) (brickInCourseIndex + 1)
    else []

/-- Iteration budget for one course: every iteration advances the cursor by a
positive amount and all but the last advance it by at least 50mm, so
`⌈wallWidth⌉ + 1` iterations always suffice (proved below). -/
def courseFuel (wallWidth : ℚ) : ℕ := (⌈wallWidth⌉).toNat + 1

/-- One course of `generateInitialBrickLayout`: dispatch on the bond type and
lay bricks left to right from `x = 0`. -/
def courseBricks (bondType : BondType) (wallWidth : ℚ) (courseIndex : ℕ) : List Brick :=
  let y := (courseIndex : ℚ) * COURSE_HEIGHT
  match bondType with
  | BondType.stretcher =>
    layCourseFuel (stretcherChoose (courseIndex % 2 == 0)) wallWidth y courseIndex
      (courseFuel wallWidth) 0 0
  | BondType.english_cross =>
    layCourseFuel (englishCrossChoose (courseIndex % 4)) wallWidth y courseIndex
      (courseFuel wallWidth) 0 0
  | BondType.flemish =>
    layCourseFuel (flemishChoose (courseIndex % 2 == 0)) wallWidth y courseIndex
      (courseFuel wallWidth) 0 0

/-- `generateInitialBrickLayout` from `bondGenerator.ts`:
`floor(wallHeight / COURSE_HEIGHT)` courses, each laid at
`y = courseIndex * COURSE_HEIGHT`. -/
def generateInitialBrickLayout (bondType : BondType) (wallWidth wallHeight : ℚ) : List Brick :=
  let numCourses := (⌊wallHeight / COURSE_HEIGHT⌋).toNat
  ((List.range numCourses).map (courseBricks bondType wallWidth)).flatten

end Masonry

namespace Masonry

/-- Once the cursor has reached or passed the wall edge the course loop
emits nothing, whatever budget remains. -/
theorem layCourseFuel_stop (choose : ℚ → ℕ → BrickType × ℚ) (wallWidth y : ℚ)
    (courseIndex : ℕ) (fuel : ℕ) (currentX : ℚ) (i : ℕ) (h : wallWidth ≤ currentX) :
    layCourseFuel choose wallWidth y courseIndex fuel currentX i = [] := by
  cases fuel with
  | zero => rfl
  | succ n =>
    simp only [layCourseFuel]
    rw [if_neg (not_lt.mpr h)]

/-- Sanity property of every bond's brick-selection function: for a positive
remaining row length it returns a positive brick length that fits the
remaining span, and that length is either at least 40mm (a catalogue brick)
or exactly the remaining span (a cut piece). -/
def ChooseOK (choose : ℚ → ℕ → BrickType × ℚ) : Prop :=
  ∀ r i, 0 < r →
    0 < (choose r i).2 ∧ (choose r i).2 ≤ r ∧ (40 ≤ (choose r i).2 ∨ (choose r i).2 = r)

theorem stretcherChoose_ok (isEvenCourse : Bool) : ChooseOK (stretcherChoose isEvenCourse) := by
  intro r i hr
  unfold stretcherChoose
  dsimp only
  split
  · split
    · rename_i h
      refine ⟨by norm_num [HALF_BRICK_LENGTH], h, Or.inl (by norm_num [HALF_BRICK_LENGTH])⟩
    · exact ⟨hr, le_refl r, Or.inr rfl⟩
  · split
    · rename_i h
      refine ⟨by norm_num [FULL_BRICK_LENGTH], h, Or.inl (by norm_num [FULL_BRICK_LENGTH])⟩
    · split
      · rename_i h
        refine ⟨by norm_num [HALF_BRICK_LENGTH], h, Or.inl (by norm_num [HALF_BRICK_LENGTH])⟩
      · exact ⟨hr, le_refl r, Or.inr rfl⟩

theorem englishCrossChoose_ok (patternType : ℕ) : ChooseOK (englishCrossChoose patternType) := by
  intro r i hr
  unfold englishCrossChoose
  split
  · split
    · rename_i h
      exact ⟨by norm_num [FULL_BRICK_LENGTH], h, Or.inl (by norm_num [FULL_BRICK_LENGTH])⟩
    · split
      · rename_i h
        exact ⟨by norm_num [HALF_BRICK_LENGTH], h, Or.inl (by norm_num [HALF_BRICK_LENGTH])⟩
      · exact ⟨hr, le_refl r, Or.inr rfl⟩
  · split
    · split
      · split
        · rename_i h
          exact ⟨by norm_num [CUSTOM_BRICK_ECB1_LENGTH], h,
            Or.inl (by norm_num [CUSTOM_BRICK_ECB1_LENGTH])⟩
        · exact ⟨hr, le_refl r, Or.inr rfl⟩
      · split
        · rename_i h
          exact ⟨by norm_num [HALF_BRICK_LENGTH], h, Or.inl (by norm_num [HALF_BRICK_LENGTH])⟩
        · exact ⟨hr, le_refl r, Or.inr rfl⟩
    · split
      · split
        · rename_i h
          exact ⟨by norm_num [HALF_BRICK_LENGTH], h, Or.inl (by norm_num [HALF_BRICK_LENGTH])⟩
        · exact ⟨hr, le_refl r, Or.inr rfl⟩
      · split
        · rename_i h
          exact ⟨by norm_num [FULL_BRICK_LENGTH], h, Or.inl (by norm_num [FULL_BRICK_LENGTH])⟩
        · split
          · rename_i h
            exact ⟨by norm_num [HALF_BRICK_LENGTH], h, Or.inl (by norm_num [HALF_BRICK_LENGTH])⟩
          · exact ⟨hr, le_refl r, Or.inr rfl⟩

theorem flemishChoose_ok (isLine1Pattern : Bool) : ChooseOK (flemishChoose isLine1Pattern) := by
  intro r i hr
  unfold flemishChoose
  split
  · split
    · split
      · rename_i h
        exact ⟨by norm_num [FULL_BRICK_LENGTH], h, Or.inl (by norm_num [FULL_BRICK_LENGTH])⟩
      · split
        · rename_i h
          exact ⟨by norm_num [HALF_BRICK_LENGTH], h, Or.inl (by norm_num [HALF_BRICK_LENGTH])⟩
        · exact ⟨hr, le_refl r, Or.inr rfl⟩
    · split
      · rename_i h
        exact ⟨by norm_num [HALF_BRICK_LENGTH], h, Or.inl (by norm_num [HALF_BRICK_LENGTH])⟩
      · exact ⟨hr, le_refl r, Or.inr rfl⟩
  · split
    · split
      · rename_i h
        exact ⟨by norm_num [CUSTOM_BRICK_FLEMISH_HEADER_LENGTH], h,
          Or.inl (by norm_num [CUSTOM_BRICK_FLEMISH_HEADER_LENGTH])⟩
      · exact ⟨hr, le_refl r, Or.inr rfl⟩
    · split
      · split
        · rename_i h
          exact ⟨by norm_num [HALF_BRICK_LENGTH], h, Or.inl (by norm_num [HALF_BRICK_LENGTH])⟩
        · exact ⟨hr, le_refl r, Or.inr rfl⟩
      · split
        · rename_i h
          exact ⟨by norm_num [FULL_BRICK_LENGTH], h, Or.inl (by norm_num [FULL_BRICK_LENGTH])⟩
        · split
          · rename_i h
            exact ⟨by norm_num [HALF_BRICK_LENGTH], h, Or.inl (by norm_num [HALF_BRICK_LENGTH])⟩
          · exact ⟨hr, le_refl r, Or.inr rfl⟩

/-- Budget irrelevance: any two budgets covering the remaining span at 50mm
per iteration produce the same course (all but the final iteration advance the
cursor by at least 40mm of brick plus a 10mm joint). -/
theorem layCourseFuel_budget_irrel (choose : ℚ → ℕ → BrickType × ℚ)
    (hc : ChooseOK choose) (wallWidth y : ℚ) (courseIndex : ℕ) :
    ∀ (fuel₁ fuel₂ : ℕ) (currentX : ℚ) (i : ℕ), wallWidth - currentX ≤ 50 * (fuel₁ : ℚ) →
      wallWidth - currentX ≤ 50 * (fuel₂ : ℚ) →
      layCourseFuel choose wallWidth y courseIndex fuel₁ currentX i =
        layCourseFuel choose wallWidth y courseIndex fuel₂ currentX i := by
  intro fuel₁
  induction fuel₁ with
  | zero =>
    intro fuel₂ currentX i h₁ _
    have hx : wallWidth ≤ currentX := by
      have : wallWidth - currentX ≤ 0 := by simpa using h₁
      linarith
    rw [layCourseFuel_stop choose wallWidth y courseIndex 0 currentX i hx,
      layCourseFuel_stop choose wallWidth y courseIndex fuel₂ currentX i hx]
  | succ n ih =>
    intro fuel₂ currentX i h₁ h₂
    rcases le_or_lt wallWidth currentX with hx | hx
    · rw [layCourseFuel_stop choose wallWidth y courseIndex (n + 1) currentX i hx,
        layCourseFuel_stop choose wallWidth y courseIndex fuel₂ currentX i hx]
    · have hr : 0 < wallWidth - currentX := by linarith
      cases fuel₂ with
      | zero =>
        exfalso
        have : wallWidth - currentX ≤ 0 := by simpa using h₂
        linarith
      | succ m =>
        obtain ⟨hpos, hle, hforty⟩ := hc (wallWidth - currentX) i hr
        simp only [layCourseFuel]
        rw [if_pos hx, if_pos hx, if_neg (not_le.mpr hr), if_neg (not_le.mpr hr)]
        set len := (choose (wallWidth - currentX) i).2 with hlen
        by_cases hj : currentX + len < wallWidth
        · rw [if_pos hj, if_pos hj]
          have h40 : 40 ≤ len := by
            rcases hforty with h | h
            · exact h
            · exfalso
              rw [h] at hj
              linarith
          congr 1
          exact ih m (currentX + len + HEAD_JOINT) (i + 1)
            (by push_cast at h₁ ⊢; rw [HEAD_JOINT]; linarith)
            (by push_cast at h₂ ⊢; rw [HEAD_JOINT]; linarith)
        · rw [if_neg hj, if_neg hj]
          congr 1
          have hx' : wallWidth ≤ currentX + len := not_lt.mp hj
          rw [layCourseFuel_stop choose wallWidth y courseIndex n _ _ hx',
            layCourseFuel_stop choose wallWidth y courseIndex m _ _ hx']

/-- The budget `courseFuel wallWidth` used by `courseBricks` covers the wall
width at 50mm per iteration. -/
theorem courseFuel_budget (wallWidth : ℚ) : wallWidth - 0 ≤ 50 * (courseFuel wallWidth : ℚ) := by
  rcases le_or_lt wallWidth 0 with h | h
  · have : (0 : ℚ) ≤ 50 * (courseFuel wallWidth : ℚ) := by positivity
    linarith
  · have h₁ : wallWidth ≤ ⌈wallWidth⌉ := Int.le_ceil wallWidth
    have h₂ : (0 : ℤ) ≤ ⌈wallWidth⌉ := by
      have := Int.ceil_pos.mpr h
      omega
    have h₃ : (⌈wallWidth⌉ : ℚ) = ((⌈wallWidth⌉.toNat : ℤ) : ℚ) := by
      rw [Int.toNat_of_nonneg h₂]
    have h₄ : ((⌈wallWidth⌉.toNat : ℚ)) ≤ 50 * (courseFuel wallWidth : ℚ) := by
      rw [courseFuel]
      push_cast
      nlinarith [Nat.cast_nonneg (α := ℚ) ⌈wallWidth⌉.toNat]
    push_cast at h₃ h₄ ⊢
    linarith

end Masonry

namespace Masonry

/-- Consecutive bricks of a course: the next brick starts exactly one head
joint after the previous brick ends. -/
def jointRel (a b : Brick) : Prop := b.x = a.x + a.length + HEAD_JOINT

theorem getLast?_cons_of_ne_nil {α : Type*} (a : α) {l : List α} (h : l ≠ []) :
    (a :: l).getLast? = l.getLast? := by
  cases l with
  | nil => exact absurd rfl h
  | cons b t => exact List.getLast?_cons_cons

/-- Structure of one generated course, for any selection function satisfying
`ChooseOK`: starting strictly inside the wall, the course is non-empty, its
first brick starts at the cursor, consecutive bricks are separated by exactly
one head joint, and the last brick ends in `[wallWidth - HEAD_JOINT, wallWidth]`. -/
theorem layCourseFuel_course_spec (choose : ℚ → ℕ → BrickType × ℚ) (hc : ChooseOK choose)
    (wallWidth y : ℚ) (courseIndex : ℕ) :
    ∀ (fuel : ℕ) (currentX : ℚ) (i : ℕ),
      wallWidth - currentX ≤ 50 * (fuel : ℚ) → currentX < wallWidth →
      layCourseFuel choose wallWidth y courseIndex fuel currentX i ≠ [] ∧
      List.Chain' jointRel (layCourseFuel choose wallWidth y courseIndex fuel currentX i) ∧
      (∀ b₀ ∈ (layCourseFuel choose wallWidth y courseIndex fuel currentX i).head?,
        b₀.x = currentX ∧ b₀.y = y) ∧
      (∃ bl ∈ (layCourseFuel choose wallWidth y courseIndex fuel currentX i).getLast?,
        wallWidth - HEAD_JOINT ≤ bl.x + bl.length ∧ bl.x + bl.length ≤ wallWidth) := by
  intro fuel
  induction fuel with
  | zero =>
    intro currentX i hb hx
    exfalso
    push_cast at hb
    linarith
  | succ n ih =>
    intro currentX i hb hx
    have hr : 0 < wallWidth - currentX := by linarith
    obtain ⟨hpos, hle, h40or⟩ := hc (wallWidth - currentX) i hr
    simp only [layCourseFuel]
    rw [if_pos hx, if_neg (not_le.mpr hr)]
    set len := (choose (wallWidth - currentX) i).2 with hlen
    set brick : Brick :=
      { x := currentX, y := y, type := (choose (wallWidth - currentX) i).1, length := len,
        strideIndex := -1, orderInStride := -1,
        id := mkBrickId courseIndex i } with hbrick
    by_cases hj : currentX + len < wallWidth
    · rw [if_pos hj]
      have h40 : 40 ≤ len := by
        rcases h40or with h | h
        · exact h
        · exfalso; rw [h] at hj; linarith
      by_cases hx' : currentX + len + HEAD_JOINT < wallWidth
      · have hb' : wallWidth - (currentX + len + HEAD_JOINT) ≤ 50 * (n : ℚ) := by
          push_cast at hb ⊢
          rw [HEAD_JOINT] at *
          linarith
        obtain ⟨hne, hch, hhead, bl, hbl, hbl1, hbl2⟩ := ih (currentX + len + HEAD_JOINT) (i + 1) hb' hx'
        refine ⟨by simp, ?_, ?_, ?_⟩
        · rw [List.chain'_cons']
          refine ⟨?_, hch⟩
          intro b₁ hb₁
          have := hhead b₁ hb₁
          simp only [jointRel, hbrick, this.1]
        · intro b₀ hb₀
          simp only [List.head?_cons, Option.mem_def, Option.some.injEq] at hb₀
          subst hb₀
          exact ⟨rfl, rfl⟩
        · refine ⟨bl, ?_, hbl1, hbl2⟩
          rw [getLast?_cons_of_ne_nil brick hne]
          exact hbl
      · rw [layCourseFuel_stop choose wallWidth y courseIndex n _ _ (not_lt.mp hx')]
        refine ⟨by simp, List.chain'_singleton brick, ?_, ?_⟩
        · intro b₀ hb₀
          simp only [List.head?_cons, Option.mem_def, Option.some.injEq] at hb₀
          subst hb₀
          exact ⟨rfl, rfl⟩
        · refine ⟨brick, by simp [List.getLast?], ?_, ?_⟩
          · have := not_lt.mp hx'
            simp only [hbrick]
            rw [HEAD_JOINT] at *
            linarith
          · simp only [hbrick]
            linarith
    · rw [if_neg hj]
      rw [layCourseFuel_stop choose wallWidth y courseIndex n _ _ (not_lt.mp hj)]
      refine ⟨by simp, List.chain'_singleton brick, ?_, ?_⟩
      · intro b₀ hb₀
        simp only [List.head?_cons, Option.mem_def, Option.some.injEq] at hb₀
        subst hb₀
        exact ⟨rfl, rfl⟩
      · refine ⟨brick, by simp [List.getLast?], ?_, ?_⟩
        · have := not_lt.mp hj
          simp only [hbrick]
          rw [HEAD_JOINT]
          linarith
        · simp only [hbrick]
          linarith

/-- `ChooseOK` holds for the selection function of every bond dispatched by
`courseBricks`. -/
theorem courseBricks_choose_ok (bondType : BondType) (courseIndex : ℕ) :
    ∃ choose, ChooseOK choose ∧
      ∀ wallWidth, courseBricks bondType wallWidth courseIndex =
        layCourseFuel choose wallWidth ((courseIndex : ℚ) * COURSE_HEIGHT) courseIndex
          (courseFuel wallWidth) 0 0 := by
  cases bondType with
  | stretcher =>
    exact ⟨stretcherChoose (courseIndex % 2 == 0), stretcherChoose_ok _, fun _ => rfl⟩
  | english_cross =>
    exact ⟨englishCrossChoose (courseIndex % 4), englishCrossChoose_ok _, fun _ => rfl⟩
  | flemish =>
    exact ⟨flemishChoose (courseIndex % 2 == 0), flemishChoose_ok _, fun _ => rfl⟩

end Masonry

namespace Masonry

theorem flatten_map_singleton {α β : Type*} (l : List α) (f : α → β) :
    ((l.map (fun a => [f a])).flatten) = l.map f := by
  induction l with
  | nil => rfl
  | cons a t ih => simp [ih]

theorem flatten_map_nil {α β : Type*} (l : List α) :
    ((l.map (fun _ => ([] : List β))).flatten) = [] := by
  induction l with
  | nil => rfl
  | cons a t ih => simp [ih]

/-- C6 (amended): in every course emitted by `generateInitialBrickLayout`
(any bond type, positive wall width), consecutive bricks are separated by
exactly the head-joint width `HEAD_JOINT` with no other gaps; the course is
non-empty and its last brick ends within one head joint of the wall's right
edge, `wallWidth - HEAD_JOINT ≤ last.x + last.length ≤ wallWidth` (the original
claim that the last brick always ends exactly at `wallWidth` is refuted by
`C6_counterexample_width_215`: when the remainder after a catalogue brick plus
its joint would be non-positive, the course stops short of the edge). -/
theorem C6_joint_spacing_and_edge (bondType : BondType) (wallWidth : ℚ) (courseIndex : ℕ)
    (h : 0 < wallWidth) :
    courseBricks bondType wallWidth courseIndex ≠ [] ∧
    List.Chain' jointRel (courseBricks bondType wallWidth courseIndex) ∧
    ∃ bl ∈ (courseBricks bondType wallWidth courseIndex).getLast?,
      wallWidth - HEAD_JOINT ≤ bl.x + bl.length ∧ bl.x + bl.length ≤ wallWidth := by
  obtain ⟨choose, hok, heq⟩ := courseBricks_choose_ok bondType courseIndex
  rw [heq]
  have hspec := layCourseFuel_course_spec choose hok wallWidth
    ((courseIndex : ℚ) * COURSE_HEIGHT) courseIndex (courseFuel wallWidth) 0 0
    (courseFuel_budget wallWidth) h
  exact ⟨hspec.1, hspec.2.1, hspec.2.2.2⟩

/-- C6 witness: a concrete positive wall width satisfying the theorem's
hypothesis (stretcher bond, width 300, course 0). -/
theorem C6_witness :
    courseBricks BondType.stretcher 300 0 ≠ [] ∧
    List.Chain' jointRel (courseBricks BondType.stretcher 300 0) ∧
    ∃ bl ∈ (courseBricks BondType.stretcher 300 0).getLast?,
      (300 : ℚ) - HEAD_JOINT ≤ bl.x + bl.length ∧ bl.x + bl.length ≤ 300 :=
  C6_joint_spacing_and_edge BondType.stretcher 300 0 (by norm_num)

/-- C6 counterexample: for a stretcher wall of width 215mm (one course), the
generated course is a single full brick ending at 210 ≠ 215, so the last brick
of a course does not always reach the wall's right edge exactly. -/
theorem C6_counterexample_width_215 :
    generateInitialBrickLayout BondType.stretcher 215 62.5 =
      [{ x := 0, y := 0, type := BrickType.full, length := 210,
         strideIndex := -1, orderInStride := -1, id := "brick-0-0" }] ∧
    ¬ ((0 : ℚ) + 210 = 215) := by
  constructor
  · have hn : (⌊(62.5 : ℚ) / COURSE_HEIGHT⌋).toNat = 1 := by
      have h : (⌊(62.5 : ℚ) / COURSE_HEIGHT⌋) = 1 := by norm_num [COURSE_HEIGHT]
      rw [h]
      rfl
    have hcb : courseBricks BondType.stretcher 215 0 =
        layCourseFuel (stretcherChoose (0 % 2 == 0)) 215 ((0 : ℕ) * COURSE_HEIGHT) 0
          (courseFuel 215) 0 0 := rfl
    have hfuel := layCourseFuel_budget_irrel (stretcherChoose (0 % 2 == 0))
      (stretcherChoose_ok _) 215 ((0 : ℕ) * COURSE_HEIGHT) 0 (courseFuel 215) 5 0 0
      (by simpa using courseFuel_budget 215) (by norm_num)
    simp only [generateInitialBrickLayout, hn, List.range_succ, List.range_zero,
      List.nil_append, List.map_cons, List.map_nil, List.flatten_cons, List.flatten_nil,
      List.append_nil]
    rw [hcb, hfuel]
    norm_num [layCourseFuel, stretcherChoose, mkBrickId, HEAD_JOINT,
      FULL_BRICK_LENGTH, HALF_BRICK_LENGTH]
    rfl
  · norm_num

/-- C7 (amended): for a wall strictly narrower than a half brick (100mm), every
stretcher course is exactly one cut brick (`custom_end`) of length `wallWidth`
starting at `x = 0`, with no head joint. (At the claimed width 150mm this
fails — see `C7_counterexample_width_150` — because a 100mm half brick fits.) -/
theorem C7_narrow_wall_single_cut (wallWidth wallHeight : ℚ) (h0 : 0 < wallWidth)
    (h1 : wallWidth < HALF_BRICK_LENGTH) :
    generateInitialBrickLayout BondType.stretcher wallWidth wallHeight =
      (List.range (⌊wallHeight / COURSE_HEIGHT⌋).toNat).map (fun courseIndex =>
        { x := 0, y := (courseIndex : ℚ) * COURSE_HEIGHT, type := BrickType.custom_end,
          length := wallWidth, strideIndex := -1, orderInStride := -1,
          id := mkBrickId courseIndex 0 }) := by
  have h2 : ¬ (HALF_BRICK_LENGTH ≤ wallWidth) := not_le.mpr h1
  have h3 : ¬ (FULL_BRICK_LENGTH ≤ wallWidth) := by
    rw [FULL_BRICK_LENGTH]
    rw [HALF_BRICK_LENGTH] at h1
    intro hcon
    linarith
  have hcourse : ∀ c : ℕ, courseBricks BondType.stretcher wallWidth c =
      [{ x := 0, y := (c : ℚ) * COURSE_HEIGHT, type := BrickType.custom_end,
         length := wallWidth, strideIndex := -1, orderInStride := -1,
         id := mkBrickId c 0 }] := by
    intro c
    have hch : stretcherChoose (c % 2 == 0) (wallWidth - 0) 0 =
        (BrickType.custom_end, wallWidth - 0) := by
      unfold stretcherChoose
      cases (c % 2 == 0) <;> simp [h2, h3, h1]
    have hstop : layCourseFuel (stretcherChoose (c % 2 == 0)) wallWidth
        ((c : ℚ) * COURSE_HEIGHT) c ((⌈wallWidth⌉).toNat) (0 + (wallWidth - 0)) 1 = [] :=
      layCourseFuel_stop _ _ _ _ _ _ _ (by linarith)
    have hnj : ¬ ((0 : ℚ) + (wallWidth - 0) < wallWidth) := by simp
    show layCourseFuel (stretcherChoose (c % 2 == 0)) wallWidth
        ((c : ℚ) * COURSE_HEIGHT) c (courseFuel wallWidth) 0 0 = _
    simp only [courseFuel, layCourseFuel]
    rw [if_pos h0, if_neg (by simpa using not_le.mpr h0), hch, if_neg hnj, hstop]
    simp
  have hfun : courseBricks BondType.stretcher wallWidth = fun c =>
      [{ x := 0, y := (c : ℚ) * COURSE_HEIGHT, type := BrickType.custom_end,
         length := wallWidth, strideIndex := -1, orderInStride := -1,
         id := mkBrickId c 0 }] := funext hcourse
  simp only [generateInitialBrickLayout, hfun]
  exact flatten_map_singleton _ _

/-- C7 witness: wall width 90mm (< 100mm), height 70mm (one course): one cut
brick of length 90 and no head joint. -/
theorem C7_witness :
    generateInitialBrickLayout BondType.stretcher 90 70 =
      [{ x := 0, y := 0, type := BrickType.custom_end, length := 90,
         strideIndex := -1, orderInStride := -1, id := "brick-0-0" }] := by
  have h := C7_narrow_wall_single_cut 90 70 (by norm_num) (by norm_num [HALF_BRICK_LENGTH])
  rw [h]
  have hn : (⌊(70 : ℚ) / COURSE_HEIGHT⌋).toNat = 1 := by
    have hfl : (⌊(70 : ℚ) / COURSE_HEIGHT⌋) = 1 := by
      rw [COURSE_HEIGHT, Int.floor_eq_iff]
      norm_num
    rw [hfl]
    rfl
  rw [hn]
  simp [List.range_succ, mkBrickId]
  rfl

/-- C7 counterexample: at the claimed wall width of 150mm the single course is
NOT one cut brick of length 150: it is a half brick (100mm) followed, after a
10mm head joint, by a 40mm cut piece. -/
theorem C7_counterexample_width_150 :
    generateInitialBrickLayout BondType.stretcher 150 62.5 =
      [{ x := 0, y := 0, type := BrickType.half, length := 100,
         strideIndex := -1, orderInStride := -1, id := "brick-0-0" },
       { x := 110, y := 0, type := BrickType.custom_end, length := 40,
         strideIndex := -1, orderInStride := -1, id := "brick-0-1" }] ∧
    ¬ ((2 : ℕ) = 1) := by
  constructor
  · have hn : (⌊(62.5 : ℚ) / COURSE_HEIGHT⌋).toNat = 1 := by
      have h : (⌊(62.5 : ℚ) / COURSE_HEIGHT⌋) = 1 := by norm_num [COURSE_HEIGHT]
      rw [h]
      rfl
    have hcb : courseBricks BondType.stretcher 150 0 =
        layCourseFuel (stretcherChoose (0 % 2 == 0)) 150 ((0 : ℕ) * COURSE_HEIGHT) 0
          (courseFuel 150) 0 0 := rfl
    have hfuel := layCourseFuel_budget_irrel (stretcherChoose (0 % 2 == 0))
      (stretcherChoose_ok _) 150 ((0 : ℕ) * COURSE_HEIGHT) 0 (courseFuel 150) 5 0 0
      (by simpa using courseFuel_budget 150) (by norm_num)
    simp only [generateInitialBrickLayout, hn, List.range_succ, List.range_zero,
      List.nil_append, List.map_cons, List.map_nil, List.flatten_cons, List.flatten_nil,
      List.append_nil]
    rw [hcb, hfuel]
    norm_num [layCourseFuel, stretcherChoose, mkBrickId, HEAD_JOINT,
      FULL_BRICK_LENGTH, HALF_BRICK_LENGTH]
    constructor
    · rfl
    · rfl
  · norm_num

/-- C8: degenerate inputs return empty results rather than erroring: a
non-positive wall width or height yields an empty brick list, and the planner
applied to an empty brick list yields an empty stride list and an empty
envelope record. -/
theorem C8_degenerate_inputs (bondType : BondType)
    (wallWidth wallHeight envWidth envHeight planWallWidth : ℚ) :
    ((wallWidth ≤ 0 ∨ wallHeight ≤ 0) →
      generateInitialBrickLayout bondType wallWidth wallHeight = []) ∧
    calculateWallStrides [] envWidth envHeight planWallWidth = ([], []) := by
  constructor
  · rintro (hw | hh)
    · have hcb : ∀ c : ℕ, courseBricks bondType wallWidth c = [] := by
        intro c
        obtain ⟨choose, _, heq⟩ := courseBricks_choose_ok bondType c
        rw [heq]
        exact layCourseFuel_stop _ _ _ _ _ _ _ hw
      have hfun : courseBricks bondType wallWidth = fun _ => ([] : List Brick) :=
        funext hcb
      simp only [generateInitialBrickLayout, hfun]
      exact flatten_map_nil _
    · have hq : wallHeight / COURSE_HEIGHT ≤ 0 :=
        div_nonpos_of_nonpos_of_nonneg hh (by norm_num [COURSE_HEIGHT])
      have hfl : (⌊wallHeight / COURSE_HEIGHT⌋).toNat = 0 := by
        have := Int.floor_nonpos hq
        omega
      simp [generateInitialBrickLayout, hfl]
  · rfl

/-- C8 witness: concrete degenerate inputs. -/
theorem C8_witness :
    generateInitialBrickLayout BondType.flemish (-5) 2000 = [] ∧
    calculateWallStrides [] 800 1300 2300 = ([], []) := by
  have h := C8_degenerate_inputs BondType.flemish (-5) 2000 800 1300 2300
  exact ⟨h.1 (Or.inl (by norm_num)), h.2⟩

end Masonry

namespace Masonry

theorem bottomMostYOf_le (l : List Brick) (b : Brick) (hb : b ∈ l) :
    bottomMostYOf l ≤ b.y := by
  cases l with
  | nil => cases hb
  | cons a t =>
    simp only [bottomMostYOf]
    have key : ∀ (t' : List Brick) (m : ℚ),
        (∀ c ∈ t', t'.foldl (fun m c => min m c.y) m ≤ c.y) ∧
          t'.foldl (fun m c => min m c.y) m ≤ m := by
      intro t'
      induction t' with
      | nil => intro m; exact ⟨fun c hc => (List.not_mem_nil c hc).elim, le_refl m⟩
      | cons d t'' ih =>
        intro m
        refine ⟨?_, ?_⟩
        · intro c hc
          rcases List.mem_cons.mp hc with rfl | hc
          · exact le_trans (ih (min m c.y)).2 (min_le_right _ _)
          · exact (ih (min m d.y)).1 c hc
        · exact le_trans (ih (min m d.y)).2 (min_le_left _ _)
    rcases List.mem_cons.mp hb with rfl | hb
    · exact (key t b.y).2
    · exact (key t a.y).1 b hb

theorem bottomMostYOf_mem (l : List Brick) (hl : l ≠ []) :
    ∃ b ∈ l, bottomMostYOf l = b.y := by
  cases l with
  | nil => exact absurd rfl hl
  | cons a t =>
    simp only [bottomMostYOf]
    have key : ∀ (t' : List Brick) (m : ℚ),
        t'.foldl (fun m c => min m c.y) m = m ∨
          ∃ b ∈ t', t'.foldl (fun m c => min m c.y) m = b.y := by
      intro t'
      induction t' with
      | nil => intro m; exact Or.inl rfl
      | cons d t'' ih =>
        intro m
        rw [List.foldl_cons]
        rcases ih (min m d.y) with h | ⟨b, hb, h⟩
        · rcases min_cases m d.y with ⟨hm, _⟩ | ⟨hm, _⟩
          · exact Or.inl (by rw [h, hm])
          · exact Or.inr ⟨d, List.mem_cons_self d t'', by rw [h, hm]⟩
        · exact Or.inr ⟨b, List.mem_cons_of_mem d hb, h⟩
    rcases key t a.y with h | ⟨b, hb, h⟩
    · exact ⟨a, List.mem_cons_self a t, h⟩
    · exact ⟨b, List.mem_cons_of_mem a hb, h⟩

theorem mem_unplaced_iff (all : List Brick) (placed : List String) (b : Brick) :
    b ∈ all.filter (fun b => !placed.contains b.id) ↔ b ∈ all ∧ ¬ b.id ∈ placed := by
  rw [List.mem_filter]
  simp

theorem addPlaced_mem (bricks : List Brick) (placed : List String) (i : String) :
    i ∈ addPlaced placed bricks ↔ i ∈ placed ∨ i ∈ bricks.map Brick.id := by
  induction bricks generalizing placed with
  | nil => simp [addPlaced]
  | cons b t ih =>
    simp only [addPlaced, List.foldl_cons] at *
    by_cases hc : placed.contains b.id
    · rw [if_pos hc, ih]
      have hb : b.id ∈ placed := by simpa using hc
      simp only [List.map_cons, List.mem_cons]
      constructor
      · tauto
      · rintro (h | h | h)
        · tauto
        · subst h; tauto
        · tauto
    · rw [if_neg hc, ih]
      simp only [List.mem_append, List.mem_singleton, List.map_cons, List.mem_cons]
      tauto

theorem addPlaced_sub (bricks : List Brick) (placed : List String) (i : String)
    (h : i ∈ placed) : i ∈ addPlaced placed bricks :=
  (addPlaced_mem bricks placed i).mpr (Or.inl h)

/-- C5: across successive iterations of the planning loop, the frontier
`bottomMostY` (minimum `y` over still-uncommitted bricks) never decreases:
committing one iteration's stride only removes bricks from the uncommitted
set, so the minimum over the remaining set can only rise. `planLoop` calls
exactly this step (`strideStepOption` + `commitStride` + `addPlaced`). -/
theorem C5_frontier_monotone (all : List Brick) (envWidth envHeight wallWidth : ℚ)
    (placed : List String) (ctr : ℕ)
    (h₁ : all.filter (fun b => !placed.contains b.id) ≠ [])
    (h₂ : all.filter (fun b =>
      !(addPlaced placed (commitStride
          (strideStepOption all envWidth envHeight wallWidth placed
            (all.filter (fun b => !placed.contains b.id))).bricks ctr)).contains b.id) ≠ []) :
    bottomMostYOf (all.filter (fun b => !placed.contains b.id)) ≤
      bottomMostYOf (all.filter (fun b =>
        !(addPlaced placed (commitStride
            (strideStepOption all envWidth envHeight wallWidth placed
              (all.filter (fun b => !placed.contains b.id))).bricks ctr)).contains b.id)) := by
  set placedNext := addPlaced placed (commitStride
    (strideStepOption all envWidth envHeight wallWidth placed
      (all.filter (fun b => !placed.contains b.id))).bricks ctr) with hpn
  obtain ⟨b, hb, hbeq⟩ := bottomMostYOf_mem _ h₂
  rw [hbeq]
  apply bottomMostYOf_le
  rw [mem_unplaced_iff] at hb ⊢
  exact ⟨hb.1, fun hmem => hb.2 (addPlaced_sub _ _ _ hmem)⟩

end Masonry

namespace Masonry

/-- C5 witness: two course-0 bricks far apart with a 300mm-wide envelope; the
first iteration commits only the left brick and the frontier stays at `y = 0`. -/
theorem C5_witness :
    bottomMostYOf (([⟨0, 0, BrickType.full, 210, -1, -1, "a"⟩,
       ⟨1000, 0, BrickType.full, 210, -1, -1, "b"⟩] : List Brick).filter
        (fun b => !([] : List String).contains b.id)) ≤
      bottomMostYOf (([⟨0, 0, BrickType.full, 210, -1, -1, "a"⟩,
       ⟨1000, 0, BrickType.full, 210, -1, -1, "b"⟩] : List Brick).filter
        (fun b =>
          !(addPlaced [] (commitStride
              (strideStepOption [⟨0, 0, BrickType.full, 210, -1, -1, "a"⟩,
                 ⟨1000, 0, BrickType.full, 210, -1, -1, "b"⟩] 300 1300 1300 []
                (([⟨0, 0, BrickType.full, 210, -1, -1, "a"⟩,
                   ⟨1000, 0, BrickType.full, 210, -1, -1, "b"⟩] : List Brick).filter
                  (fun b => !([] : List String).contains b.id))).bricks 0)).contains b.id)) := by
  apply C5_frontier_monotone
  · simp
  · norm_num [strideStepOption, candidateStrideOption, bottomMostYOf,
      candidateRobotStartXPositions, setAdd,
      attemptForCandidate, reachableBricks, isBrickSupported, isSupportCandidate,
      commitStride, addPlaced,
      List.insertionSort, List.orderedInsert, ratOrder, admissionOrder, supportOrder,
      BRICK_HEIGHT, COURSE_HEIGHT, List.enum, List.enumFrom]
    decide

/-- Sorting order for clipped support intervals (by left endpoint). -/
def intervalStartOrder (a b : ℚ × ℚ) : Prop := a.1 ≤ b.1

instance : DecidableRel intervalStartOrder :=
  fun a b => inferInstanceAs (Decidable (a.1 ≤ b.1))

instance : IsTotal (ℚ × ℚ) intervalStartOrder := ⟨fun a b => le_total a.1 b.1⟩

instance : IsTrans (ℚ × ℚ) intervalStartOrder := ⟨fun _ _ _ => le_trans⟩

/-- Length of the union of a start-sorted list of intervals to the right of
`cursor`: each interval contributes the part of itself beyond both its start
and the running cursor, and the cursor advances to its right endpoint. On a
start-sorted list this measures the union without counting any sub-span
twice. -/
def coveredLength : ℚ → List (ℚ × ℚ) → ℚ
  | _, [] => 0
  | cursor, (s, e) :: rest => max 0 (e - max s cursor) + coveredLength (max cursor e) rest

/-- The support test as worded by the spec (§4.3): gather the
committed-or-tentative bricks of the course directly below that horizontally
overlap the brick, and compare `0.9 * length` against the total
horizontally-overlapping length computed as the measure of the union of the
individual overlaps — "no support contribution is double-counted across two
supporting bricks covering the same sub-span". -/
def isBrickSupportedSpec (brick : Brick) (globallyPlacedBricks : List String)
    (bricksAlreadyInCurrentStride : List Brick) (allWallBricks : List Brick) : Bool :=
  if brick.y = 0 then true else
  let brickEndX := brick.x + brick.length
  let supports := allWallBricks.filter
    (isSupportCandidate brick globallyPlacedBricks bricksAlreadyInCurrentStride)
  let clipped := supports.map (fun s => (max s.x brick.x, min (s.x + s.length) brickEndX))
  decide (brick.length * (9 / 10) ≤
    coveredLength brick.x (clipped.insertionSort intervalStartOrder))

/-- Two bricks whose horizontal spans do not properly overlap. -/
def brickNoOverlap (a b : Brick) : Prop := a.x + a.length ≤ b.x ∨ b.x + b.length ≤ a.x

/-- The support fold of `isBrickSupported` equals the plain sum of the
individual (clipped, non-negative) overlap lengths. -/
theorem overlapFold_eq_sum (brick : Brick) :
    ∀ (l : List Brick) (acc : ℚ),
      l.foldl (fun acc support =>
        let overlapStart := max support.x brick.x
        let overlapEnd := min (support.x + support.length) (brick.x + brick.length)
        if overlapStart < overlapEnd then acc + (overlapEnd - overlapStart) else acc) acc =
      acc + (l.map (fun support =>
        max 0 (min (support.x + support.length) (brick.x + brick.length) -
          max support.x brick.x))).sum := by
  intro l
  induction l with
  | nil => intro acc; simp
  | cons s t ih =>
    intro acc
    rw [List.foldl_cons, ih, List.map_cons, List.sum_cons]
    by_cases h : max s.x brick.x < min (s.x + s.length) (brick.x + brick.length)
    · rw [if_pos h]
      have h0 : max 0 (min (s.x + s.length) (brick.x + brick.length) - max s.x brick.x) =
          min (s.x + s.length) (brick.x + brick.length) - max s.x brick.x :=
        max_eq_right (by linarith)
      rw [h0]
      ring
    · rw [if_neg h]
      have h0 : max 0 (min (s.x + s.length) (brick.x + brick.length) - max s.x brick.x) =
          0 := max_eq_left (by push_neg at h; linarith)
      rw [h0]
      ring

/-- On a start-sorted, pairwise non-overlapping interval list whose non-empty
intervals all start at or after the cursor, the sweep measure equals the plain
sum of the individual lengths. -/
theorem coveredLength_eq_sum_of_disjoint :
    ∀ (l : List (ℚ × ℚ)) (cursor : ℚ),
      l.Pairwise intervalStartOrder →
      l.Pairwise (fun a b => a.2 ≤ b.1 ∨ b.2 ≤ a.1) →
      (∀ p ∈ l, p.1 < p.2 → cursor ≤ p.1) →
      coveredLength cursor l = (l.map (fun p => max 0 (p.2 - p.1))).sum := by
  intro l
  induction l with
  | nil => intro cursor _ _ _; simp [coveredLength]
  | cons p t ih =>
    intro cursor hsort hdisj hcur
    obtain ⟨s, e⟩ := p
    rw [coveredLength, List.map_cons, List.sum_cons]
    have hsort' := List.Pairwise.of_cons hsort
    have hdisj' := List.Pairwise.of_cons hdisj
    have hsorthead := (List.pairwise_cons.mp hsort).1
    have hdisjhead := (List.pairwise_cons.mp hdisj).1
    have hcur' : ∀ q ∈ t, q.1 < q.2 → max cursor e ≤ q.1 := by
      intro q hq hqne
      rcases hdisjhead q hq with h | h
      · exact max_le (hcur q (List.mem_cons_of_mem _ hq) hqne) h
      · exfalso
        have hs := hsorthead q hq
        rw [intervalStartOrder] at hs
        exact lt_irrefl q.1 (lt_of_lt_of_le (lt_of_lt_of_le hqne h) hs)
    rw [ih (max cursor e) hsort' hdisj' hcur']
    by_cases hne : s < e
    · have hc : cursor ≤ s := hcur (s, e) (List.mem_cons_self _ _) hne
      have h1 : max s cursor = s := max_eq_left hc
      rw [h1]
    · push_neg at hne
      have h1 : max 0 (e - max s cursor) = 0 := by
        have hs := le_max_left s cursor
        exact max_eq_left (by linarith)
      have h2 : max 0 (e - s) = 0 := max_eq_left (by linarith)
      rw [h1, h2]

end Masonry

namespace Masonry

/-- C4 (amended): `isBrickSupported` returns `true` for `y = 0`; otherwise it
compares `0.9 * length` against the SUM of the individual overlaps of the
committed-or-tentative bricks in the course directly below, which can count a
sub-span twice when two supporting bricks overlap each other (see
`C4_counterexample_double_count`). Whenever the supporting candidates are
pairwise non-overlapping — as in every layout the generator produces — the sum
equals the union measure and the code agrees exactly with the spec's
no-double-counting reading (`isBrickSupportedSpec`). -/
theorem C4_supported_agrees_when_disjoint (brick : Brick) (globallyPlacedBricks : List String)
    (bricksAlreadyInCurrentStride : List Brick) (allWallBricks : List Brick)
    (hdisj : (allWallBricks.filter (isSupportCandidate brick globallyPlacedBricks
        bricksAlreadyInCurrentStride)).Pairwise brickNoOverlap) :
    isBrickSupported brick globallyPlacedBricks bricksAlreadyInCurrentStride allWallBricks =
      isBrickSupportedSpec brick globallyPlacedBricks bricksAlreadyInCurrentStride
        allWallBricks := by
  simp only [isBrickSupported, isBrickSupportedSpec]
  by_cases hy : brick.y = 0
  · rw [if_pos hy, if_pos hy]
  · rw [if_neg hy, if_neg hy]
    set P := allWallBricks.filter
      (isSupportCandidate brick globallyPlacedBricks bricksAlreadyInCurrentStride) with hP
    set clip : Brick → ℚ × ℚ := fun s =>
      (max s.x brick.x, min (s.x + s.length) (brick.x + brick.length)) with hclip
    have hcode : (P.insertionSort supportOrder).foldl (fun acc support =>
        let overlapStart := max support.x brick.x
        let overlapEnd := min (support.x + support.length) (brick.x + brick.length)
        if overlapStart < overlapEnd then acc + (overlapEnd - overlapStart) else acc) 0 =
        ((P.insertionSort supportOrder).map (fun support =>
          max 0 (min (support.x + support.length) (brick.x + brick.length) -
            max support.x brick.x))).sum := by
      rw [overlapFold_eq_sum brick]
      ring
    have hpermP : (P.insertionSort supportOrder).Perm P := List.perm_insertionSort _ P
    have hcode₂ : ((P.insertionSort supportOrder).map (fun support =>
        max 0 (min (support.x + support.length) (brick.x + brick.length) -
          max support.x brick.x))).sum =
        ((P.map (fun support =>
          max 0 (min (support.x + support.length) (brick.x + brick.length) -
            max support.x brick.x))).sum) :=
      (hpermP.map _).sum_eq
    have hpermC : ((P.map clip).insertionSort intervalStartOrder).Perm (P.map clip) :=
      List.perm_insertionSort _ _
    have hsorted : ((P.map clip).insertionSort intervalStartOrder).Pairwise
        intervalStartOrder :=
      List.sorted_insertionSort intervalStartOrder (P.map clip)
    have hdisjC : (P.map clip).Pairwise (fun a b => a.2 ≤ b.1 ∨ b.2 ≤ a.1) := by
      refine List.Pairwise.map clip ?_ hdisj
      intro a b hab
      rcases hab with h | h
      · left
        simp only [hclip]
        calc min (a.x + a.length) (brick.x + brick.length) ≤ a.x + a.length :=
              min_le_left _ _
          _ ≤ b.x := h
          _ ≤ max b.x brick.x := le_max_left _ _
      · right
        simp only [hclip]
        calc min (b.x + b.length) (brick.x + brick.length) ≤ b.x + b.length :=
              min_le_left _ _
          _ ≤ a.x := h
          _ ≤ max a.x brick.x := le_max_left _ _
    have hdisjSC : ((P.map clip).insertionSort intervalStartOrder).Pairwise
        (fun a b => a.2 ≤ b.1 ∨ b.2 ≤ a.1) := by
      exact (hpermC.pairwise_iff (fun hab => Or.symm hab)).mpr hdisjC
    have hcur : ∀ q ∈ (P.map clip).insertionSort intervalStartOrder,
        q.1 < q.2 → brick.x ≤ q.1 := by
      intro q hq _
      have : q ∈ P.map clip := hpermC.mem_iff.mp hq
      obtain ⟨s, _, rfl⟩ := List.mem_map.mp this
      simp only [hclip]
      exact le_max_right _ _
    have hspec : coveredLength brick.x ((P.map clip).insertionSort intervalStartOrder) =
        (((P.map clip).insertionSort intervalStartOrder).map
          (fun p => max 0 (p.2 - p.1))).sum :=
      coveredLength_eq_sum_of_disjoint _ brick.x hsorted hdisjSC hcur
    have hspec₂ : (((P.map clip).insertionSort intervalStartOrder).map
        (fun p => max 0 (p.2 - p.1))).sum =
        ((P.map clip).map (fun p => max 0 (p.2 - p.1))).sum :=
      (hpermC.map _).sum_eq
    have hmapmap : ((P.map clip).map (fun p => max 0 (p.2 - p.1))).sum =
        (P.map (fun support =>
          max 0 (min (support.x + support.length) (brick.x + brick.length) -
            max support.x brick.x))).sum := by
      rw [List.map_map]
      rfl
    rw [hcode, hcode₂, hspec, hspec₂, hmapmap]

/-- C4 counterexample: two coincident committed bricks `[0,50)` in the course
below a 100mm brick: the code sums their overlaps (50 + 50 = 100 ≥ 90) and
declares the brick supported, but the union of the overlaps is only 50 < 90, so
the claimed no-double-counting reading is violated. -/
theorem C4_counterexample_double_count :
    isBrickSupported ⟨0, 62.5, BrickType.half, 100, -1, -1, "t"⟩ ["s1", "s2"] []
        [⟨0, 62.5, BrickType.half, 100, -1, -1, "t"⟩,
         ⟨0, 0, BrickType.custom_end, 50, -1, -1, "s1"⟩,
         ⟨0, 0, BrickType.custom_end, 50, -1, -1, "s2"⟩] = true ∧
    isBrickSupportedSpec ⟨0, 62.5, BrickType.half, 100, -1, -1, "t"⟩ ["s1", "s2"] []
        [⟨0, 62.5, BrickType.half, 100, -1, -1, "t"⟩,
         ⟨0, 0, BrickType.custom_end, 50, -1, -1, "s1"⟩,
         ⟨0, 0, BrickType.custom_end, 50, -1, -1, "s2"⟩] = false := by
  constructor
  · norm_num [isBrickSupported, isSupportCandidate, COURSE_HEIGHT,
      List.insertionSort, List.orderedInsert, supportOrder]
  · norm_num [isBrickSupportedSpec, isSupportCandidate, COURSE_HEIGHT, coveredLength,
      List.insertionSort, List.orderedInsert, intervalStartOrder]

/-- C4 witness: two disjoint committed bricks `[0,50)` and `[50,100)` below a
100mm brick; the disjointness hypothesis holds and the code agrees with the
union-measure reading. -/
theorem C4_witness :
    isBrickSupported ⟨0, 62.5, BrickType.half, 100, -1, -1, "t"⟩ ["s1", "s2"] []
        [⟨0, 62.5, BrickType.half, 100, -1, -1, "t"⟩,
         ⟨0, 0, BrickType.custom_end, 50, -1, -1, "s1"⟩,
         ⟨50, 0, BrickType.custom_end, 50, -1, -1, "s2"⟩] =
      isBrickSupportedSpec ⟨0, 62.5, BrickType.half, 100, -1, -1, "t"⟩ ["s1", "s2"] []
        [⟨0, 62.5, BrickType.half, 100, -1, -1, "t"⟩,
         ⟨0, 0, BrickType.custom_end, 50, -1, -1, "s1"⟩,
         ⟨50, 0, BrickType.custom_end, 50, -1, -1, "s2"⟩] := by
  apply C4_supported_agrees_when_disjoint
  norm_num [isSupportCandidate, COURSE_HEIGHT, brickNoOverlap, List.filter]

end Masonry

namespace Masonry

theorem foldl_admit_append_sublist (f : List Brick → Brick → Bool) :
    ∀ (l acc : List Brick),
      ∃ t, l.foldl (fun a b => if f a b then a ++ [b] else a) acc = acc ++ t ∧ t.Sublist l := by
  intro l
  induction l with
  | nil => intro acc; exact ⟨[], by simp, List.nil_sublist _⟩
  | cons b l ih =>
    intro acc
    rw [List.foldl_cons]
    by_cases h : f acc b
    · rw [if_pos h]
      obtain ⟨t, ht, hs⟩ := ih (acc ++ [b])
      refine ⟨b :: t, ?_, List.Sublist.cons₂ b hs⟩
      rw [ht, List.append_assoc]
      rfl
    · rw [if_neg h]
      obtain ⟨t, ht, hs⟩ := ih acc
      exact ⟨t, ht, List.Sublist.cons b hs⟩

theorem foldl_admit_invariant (f : List Brick → Brick → Bool) :
    ∀ (l acc : List Brick),
      (∀ (j : ℕ) (hj : j < acc.length), f (acc.take j) acc[j] = true) →
      ∀ (j : ℕ) (hj : j < (l.foldl (fun a b => if f a b then a ++ [b] else a) acc).length),
        f ((l.foldl (fun a b => if f a b then a ++ [b] else a) acc).take j)
          (l.foldl (fun a b => if f a b then a ++ [b] else a) acc)[j] = true := by
  intro l
  induction l with
  | nil => intro acc hacc; simpa using hacc
  | cons b l ih =>
    intro acc hacc
    rw [List.foldl_cons]
    by_cases h : f acc b
    · rw [if_pos h]
      refine ih (acc ++ [b]) ?_
      intro j hj
      rcases lt_or_eq_of_le (Nat.le_of_lt_succ (by simpa using hj)) with hlt | heq
      · rw [List.getElem_append_left hlt, List.take_append_of_le_length (le_of_lt hlt)]
        exact hacc j hlt
      · subst heq
        rw [List.getElem_concat_length acc b acc.length rfl, List.take_left]
        exact h
    · rw [if_neg h]
      exact ih acc hacc

theorem mem_reachable_iff (envWidth envHeight : ℚ) (unplacedBricks : List Brick)
    (candidateStartX candidateStartY : ℚ) (b : Brick) :
    b ∈ reachableBricks envWidth envHeight unplacedBricks candidateStartX candidateStartY ↔
      b ∈ unplacedBricks ∧ candidateStartX ≤ b.x ∧
        b.x + b.length ≤ candidateStartX + envWidth ∧ candidateStartY ≤ b.y ∧
        b.y + BRICK_HEIGHT ≤ candidateStartY + envHeight := by
  rw [reachableBricks, List.mem_filter]
  simp [and_assoc]

theorem attemptForCandidate_sublist (allWallBricks : List Brick) (envWidth envHeight : ℚ)
    (placed : List String) (unplacedBricks : List Brick) (cx cy : ℚ) :
    (attemptForCandidate allWallBricks envWidth envHeight placed unplacedBricks cx cy).Sublist
      ((reachableBricks envWidth envHeight unplacedBricks cx cy).insertionSort
        admissionOrder) := by
  obtain ⟨t, ht, hs⟩ := foldl_admit_append_sublist
    (fun a b => isBrickSupported b placed a allWallBricks)
    ((reachableBricks envWidth envHeight unplacedBricks cx cy).insertionSort admissionOrder) []
  rw [attemptForCandidate, ht]
  simpa using hs

theorem attemptForCandidate_pairwise (allWallBricks : List Brick) (envWidth envHeight : ℚ)
    (placed : List String) (unplacedBricks : List Brick) (cx cy : ℚ) :
    (attemptForCandidate allWallBricks envWidth envHeight placed unplacedBricks cx cy).Pairwise
      admissionOrder :=
  List.Pairwise.sublist
    (attemptForCandidate_sublist allWallBricks envWidth envHeight placed unplacedBricks cx cy)
    (List.sorted_insertionSort admissionOrder _)

theorem attemptForCandidate_mem (allWallBricks : List Brick) (envWidth envHeight : ℚ)
    (placed : List String) (unplacedBricks : List Brick) (cx cy : ℚ) (c : Brick)
    (hc : c ∈ attemptForCandidate allWallBricks envWidth envHeight placed unplacedBricks cx cy) :
    c ∈ unplacedBricks ∧ cx ≤ c.x ∧ c.x + c.length ≤ cx + envWidth ∧ cy ≤ c.y ∧
      c.y + BRICK_HEIGHT ≤ cy + envHeight := by
  have h₁ : c ∈ (reachableBricks envWidth envHeight unplacedBricks cx cy).insertionSort
      admissionOrder :=
    (attemptForCandidate_sublist allWallBricks envWidth envHeight placed unplacedBricks cx cy).mem
      hc
  have h₂ : c ∈ reachableBricks envWidth envHeight unplacedBricks cx cy :=
    (List.perm_insertionSort admissionOrder _).mem_iff.mp h₁
  exact (mem_reachable_iff envWidth envHeight unplacedBricks cx cy c).mp h₂

theorem attemptForCandidate_supported (allWallBricks : List Brick) (envWidth envHeight : ℚ)
    (placed : List String) (unplacedBricks : List Brick) (cx cy : ℚ) :
    ∀ (j : ℕ)
      (hj : j < (attemptForCandidate allWallBricks envWidth envHeight placed unplacedBricks
        cx cy).length),
      isBrickSupported
        (attemptForCandidate allWallBricks envWidth envHeight placed unplacedBricks cx cy)[j]
        placed
        ((attemptForCandidate allWallBricks envWidth envHeight placed unplacedBricks cx
          cy).take j)
        allWallBricks = true := by
  intro j hj
  exact foldl_admit_invariant (fun a b => isBrickSupported b placed a allWallBricks)
    ((reachableBricks envWidth envHeight unplacedBricks cx cy).insertionSort admissionOrder) []
    (by intro j hj; simp at hj) j hj

end Masonry

namespace Masonry

theorem commitStride_length (bricks : List Brick) (ctr : ℕ) :
    (commitStride bricks ctr).length = bricks.length := by
  simp [commitStride]

theorem commitStride_getElem (bricks : List Brick) (ctr : ℕ) (j : ℕ)
    (hj : j < bricks.length) (hj' : j < (commitStride bricks ctr).length) :
    (commitStride bricks ctr)[j] =
      { bricks[j] with strideIndex := (ctr : ℤ), orderInStride := (j : ℤ) } := by
  simp [commitStride]

theorem commitStride_map_id (bricks : List Brick) (ctr : ℕ) :
    (commitStride bricks ctr).map Brick.id = bricks.map Brick.id := by
  apply List.ext_getElem
  · simp [commitStride]
  · intro j h₁ h₂
    have hj : j < bricks.length := by simpa using h₂
    have hj' : j < (commitStride bricks ctr).length := by
      rwa [commitStride_length]
    simp only [List.getElem_map]
    rw [commitStride_getElem bricks ctr j hj hj']

theorem contains_iff_mem (l : List String) (a : String) : l.contains a = true ↔ a ∈ l := by
  induction l with
  | nil => simp
  | cons b t ih => simp [List.contains_cons, ih]

theorem contains_congr (p₁ p₂ : List String) (hp : ∀ i : String, i ∈ p₁ ↔ i ∈ p₂)
    (x : String) : p₁.contains x = p₂.contains x := by
  by_cases h : x ∈ p₁
  · rw [(contains_iff_mem p₁ x).mpr h, (contains_iff_mem p₂ x).mpr ((hp x).mp h)]
  · have h' : x ∉ p₂ := fun hm => h ((hp x).mpr hm)
    cases hc₁ : p₁.contains x
    · cases hc₂ : p₂.contains x
      · rfl
      · exact absurd ((contains_iff_mem p₂ x).mp hc₂) h'
    · exact absurd ((contains_iff_mem p₁ x).mp hc₁) h

theorem any_beq_congr (t₁ t₂ : List Brick) (ht : t₁.map Brick.id = t₂.map Brick.id)
    (x : String) : t₁.any (fun b => b.id == x) = t₂.any (fun b => b.id == x) := by
  have h : ∀ t : List Brick, t.any (fun b => b.id == x) =
      (t.map Brick.id).any (fun i => i == x) := by
    intro t
    induction t with
    | nil => rfl
    | cons b tt ih => simp only [List.any_cons, List.map_cons, ih]
  rw [h, h, ht]

theorem isBrickSupported_congr (brick brick' : Brick) (p₁ p₂ : List String)
    (t₁ t₂ : List Brick) (all : List Brick)
    (hb : brick'.x = brick.x ∧ brick'.y = brick.y ∧ brick'.length = brick.length)
    (hp : ∀ i : String, i ∈ p₁ ↔ i ∈ p₂)
    (ht : t₁.map Brick.id = t₂.map Brick.id) :
    isBrickSupported brick' p₁ t₁ all = isBrickSupported brick p₂ t₂ all := by
  obtain ⟨hx, hy, hl⟩ := hb
  have hcand : ∀ c : Brick, isSupportCandidate brick' p₁ t₁ c =
      isSupportCandidate brick p₂ t₂ c := by
    intro c
    rw [isSupportCandidate, isSupportCandidate, hx, hy, hl]
    rw [contains_congr p₁ p₂ hp c.id, any_beq_congr t₁ t₂ ht c.id]
  rw [isBrickSupported, isBrickSupported, hy]
  by_cases h0 : brick.y = 0
  · rw [if_pos h0, if_pos h0]
  · rw [if_neg h0, if_neg h0]
    rw [List.filter_congr (fun c _ => hcand c), hx, hl]

theorem lookup_append (l₁ l₂ : List (ℕ × StrideMeta)) (k : ℕ) :
    (l₁ ++ l₂).lookup k =
      match l₁.lookup k with
      | some v => some v
      | none => l₂.lookup k := by
  induction l₁ with
  | nil => simp [List.lookup]
  | cons p t ih =>
    obtain ⟨a, v⟩ := p
    by_cases h : k == a
    · simp [List.lookup, h]
    · simp only [List.cons_append, List.lookup, h]
      exact ih

end Masonry

namespace Masonry

theorem foldl_best (opt : ℚ → StrideOption) :
    ∀ (cands : List ℚ) (b₀ : StrideOption),
      cands.foldl (fun best c => if best.count < (opt c).count then opt c else best) b₀ = b₀ ∨
      ∃ cx ∈ cands,
        cands.foldl (fun best c => if best.count < (opt c).count then opt c else best) b₀ =
          opt cx := by
  intro cands
  induction cands with
  | nil => intro b₀; exact Or.inl rfl
  | cons c t ih =>
    intro b₀
    rw [List.foldl_cons]
    by_cases h : b₀.count < (opt c).count
    · rw [if_pos h]
      rcases ih (opt c) with h₂ | ⟨cx, hcx, h₂⟩
      · exact Or.inr ⟨c, List.mem_cons_self c t, h₂⟩
      · exact Or.inr ⟨cx, List.mem_cons_of_mem c hcx, h₂⟩
    · rw [if_neg h]
      rcases ih b₀ with h₂ | ⟨cx, hcx, h₂⟩
      · exact Or.inl h₂
      · exact Or.inr ⟨cx, List.mem_cons_of_mem c hcx, h₂⟩

/-- Case analysis of one planning iteration: the chosen option is either the
forced fallback singleton (first unplaced brick, clamped start-X) or a
candidate evaluation that admitted a positive number of bricks, anchored at the
bottom-most unplaced course. -/
theorem strideStepOption_spec (allWallBricks : List Brick)
    (envWidth envHeight wallWidth : ℚ) (placed : List String) (ub : Brick)
    (rest : List Brick) :
    strideStepOption allWallBricks envWidth envHeight wallWidth placed (ub :: rest) =
      { startX := max 0 (min ub.x (wallWidth - envWidth)), startY := ub.y,
        bricks := [ub], count := 1 } ∨
    ∃ cx, strideStepOption allWallBricks envWidth envHeight wallWidth placed (ub :: rest) =
        candidateStrideOption allWallBricks envWidth envHeight placed (ub :: rest)
          (bottomMostYOf (ub :: rest)) cx ∧
        0 < (attemptForCandidate allWallBricks envWidth envHeight placed (ub :: rest) cx
          (bottomMostYOf (ub :: rest))).length := by
  simp only [strideStepOption]
  rcases foldl_best
      (candidateStrideOption allWallBricks envWidth envHeight placed (ub :: rest)
        (bottomMostYOf (ub :: rest)))
      (candidateRobotStartXPositions (ub :: rest) (bottomMostYOf (ub :: rest)) envWidth
        wallWidth)
      { startX := -1, startY := -1, bricks := [], count := -1 } with hfold | ⟨cx, _, hfold⟩
  · rw [hfold]
    norm_num
  · rw [hfold]
    by_cases hpos : 0 < (attemptForCandidate allWallBricks envWidth envHeight placed
        (ub :: rest) cx (bottomMostYOf (ub :: rest))).length
    · rw [if_neg ?_]
      · exact Or.inr ⟨cx, rfl, hpos⟩
      · simp only [candidateStrideOption, not_le]
        exact_mod_cast hpos
    · rw [if_pos ?_]
      · exact Or.inl rfl
      · simp only [candidateStrideOption]
        omega

end Masonry

namespace Masonry

theorem attempt_ids_nodup (allWallBricks : List Brick) (envWidth envHeight : ℚ)
    (placed : List String) (unplacedBricks : List Brick) (cx cy : ℚ)
    (hu : (unplacedBricks.map Brick.id).Nodup) :
    ((attemptForCandidate allWallBricks envWidth envHeight placed unplacedBricks cx
      cy).map Brick.id).Nodup := by
  have h₁ : (reachableBricks envWidth envHeight unplacedBricks cx cy).Sublist
      unplacedBricks := List.filter_sublist _
  have h₂ := hu.sublist (h₁.map Brick.id)
  have h₃ : (((reachableBricks envWidth envHeight unplacedBricks cx cy).insertionSort
      admissionOrder).map Brick.id).Perm
      ((reachableBricks envWidth envHeight unplacedBricks cx cy).map Brick.id) :=
    (List.perm_insertionSort admissionOrder _).map Brick.id
  have h₄ := (h₃.nodup_iff).mpr h₂
  exact h₄.sublist
    ((attemptForCandidate_sublist allWallBricks envWidth envHeight placed unplacedBricks cx
      cy).map Brick.id)

theorem addPlaced_nodup (bricks : List Brick) (placed : List String)
    (hp : placed.Nodup) : (addPlaced placed bricks).Nodup := by
  induction bricks generalizing placed with
  | nil => exact hp
  | cons b t ih =>
    simp only [addPlaced, List.foldl_cons] at *
    by_cases hc : placed.contains b.id
    · rw [if_pos hc]
      exact ih placed hp
    · rw [if_neg hc]
      refine ih (placed ++ [b.id]) ?_
      rw [List.nodup_append]
      refine ⟨hp, List.nodup_singleton _, ?_⟩
      intro x hx hx'
      rw [List.mem_singleton] at hx'
      subst hx'
      exact hc ((contains_iff_mem placed b.id).mpr hx)

theorem addPlaced_eq_append (bricks : List Brick) (placed : List String)
    (hfresh : ∀ b ∈ bricks, ¬ b.id ∈ placed) (hnd : (bricks.map Brick.id).Nodup) :
    addPlaced placed bricks = placed ++ bricks.map Brick.id := by
  induction bricks generalizing placed with
  | nil => simp [addPlaced]
  | cons b t ih =>
    simp only [addPlaced, List.foldl_cons] at *
    have hb : ¬ b.id ∈ placed := hfresh b (List.mem_cons_self b t)
    have hc : ¬ placed.contains b.id = true := fun h => hb ((contains_iff_mem placed b.id).mp h)
    rw [if_neg hc]
    rw [List.map_cons] at hnd
    have hnd' := List.Pairwise.of_cons hnd
    have hhead := (List.pairwise_cons.mp hnd).1
    have := ih (placed ++ [b.id]) ?_ hnd'
    · rw [this, List.append_assoc]
      rfl
    · intro c hc'
      rw [List.mem_append, List.mem_singleton]
      rintro (h | h)
      · exact hfresh c (List.mem_cons_of_mem b hc') h
      · exact hhead c.id (List.mem_map_of_mem Brick.id hc') h.symm

theorem commitStride_mem (bricks : List Brick) (ctr : ℕ) (c : Brick)
    (hc : c ∈ commitStride bricks ctr) :
    ∃ j : ℕ, ∃ hj : j < bricks.length,
      c = { bricks[j] with strideIndex := (ctr : ℤ), orderInStride := (j : ℤ) } := by
  obtain ⟨j, hj, hval⟩ := List.getElem_of_mem hc
  have hj' : j < bricks.length := by
    rw [commitStride_length] at hj
    exact hj
  exact ⟨j, hj', by rw [← hval, commitStride_getElem bricks ctr j hj' hj]⟩

theorem commitStride_pairwise (bricks : List Brick) (ctr : ℕ)
    (hp : bricks.Pairwise admissionOrder) :
    (commitStride bricks ctr).Pairwise admissionOrder := by
  rw [List.pairwise_iff_getElem] at hp ⊢
  intro i j hi hj hij
  have hi' : i < bricks.length := by rwa [commitStride_length] at hi
  have hj' : j < bricks.length := by rwa [commitStride_length] at hj
  rw [commitStride_getElem bricks ctr i hi' hi, commitStride_getElem bricks ctr j hj' hj]
  exact hp i j hi' hj' hij

theorem commitStride_take_map_id (bricks : List Brick) (ctr : ℕ) (j : ℕ) :
    ((commitStride bricks ctr).take j).map Brick.id = (bricks.take j).map Brick.id := by
  rw [List.map_take, List.map_take, commitStride_map_id]

end Masonry

namespace Masonry

theorem addPlaced_length_le (bricks : List Brick) (placed : List String) :
    placed.length ≤ (addPlaced placed bricks).length := by
  induction bricks generalizing placed with
  | nil => exact le_refl _
  | cons c t ih =>
    simp only [addPlaced, List.foldl_cons] at *
    by_cases hc : placed.contains c.id
    · rw [if_pos hc]
      exact ih placed
    · rw [if_neg hc]
      calc placed.length ≤ (placed ++ [c.id]).length := by simp
        _ ≤ _ := ih (placed ++ [c.id])

theorem addPlaced_length_lt (bricks : List Brick) (placed : List String) (b : Brick)
    (hb : b ∈ bricks) (hfresh : ¬ b.id ∈ placed) :
    placed.length < (addPlaced placed bricks).length := by
  induction bricks generalizing placed with
  | nil => cases hb
  | cons c t ih =>
    simp only [addPlaced, List.foldl_cons] at *
    by_cases hc : placed.contains c.id
    · rw [if_pos hc]
      rcases List.mem_cons.mp hb with rfl | hb'
      · exact absurd ((contains_iff_mem placed b.id).mp hc) hfresh
      · exact ih placed hb' hfresh
    · rw [if_neg hc]
      calc placed.length < (placed ++ [c.id]).length := by simp
        _ ≤ _ := addPlaced_length_le t (placed ++ [c.id])

/-- Loop invariant of the planner: how the working state (`placed` id set,
accumulated `strides`, envelope record `envs`, stride counter `ctr`) of
`planLoop` is shaped at every iteration. -/
structure PlanInv (allWallBricks : List Brick) (envWidth envHeight wallWidth : ℚ)
    (placed : List String) (strides : List Stride) (envs : List (ℕ × StrideMeta))
    (ctr : ℕ) : Prop where
  ctr_eq : ctr = strides.length
  env_keys : ∀ k : ℕ, (envs.lookup k).isSome ↔ k < ctr
  placed_mem : ∀ i : String, i ∈ placed ↔ i ∈ strides.flatten.map Brick.id
  placed_nodup : placed.Nodup
  placed_sub : ∀ i ∈ placed, i ∈ allWallBricks.map Brick.id
  strides_ne : ∀ s ∈ strides, s ≠ []
  strides_sorted : ∀ s ∈ strides, s.Pairwise admissionOrder
  strides_idx : ∀ (k : ℕ) (hk : k < strides.length) (j : ℕ) (hj : j < strides[k].length),
    (strides[k][j]).strideIndex = (k : ℤ) ∧ (strides[k][j]).orderInStride = (j : ℤ)
  origin : ∀ s ∈ strides, ∀ c ∈ s, ∃ b ∈ allWallBricks,
    b.x = c.x ∧ b.y = c.y ∧ b.type = c.type ∧ b.length = c.length ∧ b.id = c.id
  support : ∀ (k : ℕ) (hk : k < strides.length) (j : ℕ) (hj : j < strides[k].length),
    isBrickSupported strides[k][j] ((strides.take k).flatten.map Brick.id)
      (strides[k].take j) allWallBricks = true ∨ strides[k] = [strides[k][j]]
  contain : (∀ b ∈ allWallBricks, 0 ≤ b.x ∧ b.x + b.length ≤ wallWidth ∧
      b.length ≤ envWidth) → BRICK_HEIGHT ≤ envHeight →
    ∀ (k : ℕ) (hk : k < strides.length), ∃ m : StrideMeta, envs.lookup k = some m ∧
      ∀ c ∈ strides[k], m.minX ≤ c.x ∧ c.x + c.length ≤ m.maxX ∧
        m.minY ≤ c.y ∧ c.y + BRICK_HEIGHT ≤ m.maxY
  join_eq : (allWallBricks.map Brick.id).Nodup → placed = strides.flatten.map Brick.id

theorem planInv_init (allWallBricks : List Brick) (envWidth envHeight wallWidth : ℚ) :
    PlanInv allWallBricks envWidth envHeight wallWidth [] [] [] 0 := by
  refine ⟨rfl, ?_, ?_, List.nodup_nil, ?_, ?_, ?_, ?_, ?_, ?_, ?_, ?_⟩
  · intro k
    simp [List.lookup]
  · intro i
    simp
  · intro i hi
    cases hi
  · intro s hs
    cases hs
  · intro s hs
    cases hs
  · intro k hk
    cases hk
  · intro s hs
    cases hs
  · intro k hk
    cases hk
  · intro _ _ k hk
    cases hk
  · intro _
    rfl

end Masonry

namespace Masonry

/-- The bricks chosen by one planning iteration: non-empty, drawn from the
unplaced list, (course, x)-sorted, each admitted with the support test against
the already-admitted prefix (or a forced fallback singleton), and each lying in
the recorded envelope rectangle (given wall-shaped input for the fallback
clamp). -/
theorem strideStep_bricks_facts (allWallBricks : List Brick)
    (envWidth envHeight wallWidth : ℚ) (placed : List String) (ub : Brick)
    (rest : List Brick) (best : StrideOption)
    (hbest : best = strideStepOption allWallBricks envWidth envHeight wallWidth placed
      (ub :: rest)) :
    best.bricks ≠ [] ∧
    (∀ c ∈ best.bricks, c ∈ ub :: rest) ∧
    best.bricks.Pairwise admissionOrder ∧
    (∀ (j : ℕ) (hj : j < best.bricks.length),
      isBrickSupported best.bricks[j] placed (best.bricks.take j) allWallBricks = true ∨
        best.bricks = [best.bricks[j]]) ∧
    ((∀ b ∈ allWallBricks, 0 ≤ b.x ∧ b.x + b.length ≤ wallWidth ∧ b.length ≤ envWidth) →
      BRICK_HEIGHT ≤ envHeight → (∀ b ∈ ub :: rest, b ∈ allWallBricks) →
      ∀ c ∈ best.bricks, best.startX ≤ c.x ∧ c.x + c.length ≤ best.startX + envWidth ∧
        best.startY ≤ c.y ∧ c.y + BRICK_HEIGHT ≤ best.startY + envHeight) ∧
    (((ub :: rest).map Brick.id).Nodup → (best.bricks.map Brick.id).Nodup) := by
  rcases strideStepOption_spec allWallBricks envWidth envHeight wallWidth placed ub rest with
    hfb | ⟨cx, hc, hpos⟩
  · rw [hfb] at hbest
    subst hbest
    refine ⟨by simp, ?_, ?_, ?_, ?_, ?_⟩
    · intro c hc
      rw [List.mem_singleton] at hc
      subst hc
      exact List.mem_cons_self _ _
    · exact List.pairwise_singleton _ _
    · intro j hj
      have hj0 : j = 0 := by
        simp at hj
        omega
      subst hj0
      exact Or.inr rfl
    · intro HX HY hsub c hcmem
      simp only [List.mem_singleton] at hcmem
      subst hcmem
      obtain ⟨h0, hw, hlen⟩ := HX c (hsub c (List.mem_cons_self _ _))
      simp only
      refine ⟨?_, ?_, le_refl _, by linarith⟩
      · exact max_le h0 (min_le_left _ _)
      · rcases le_total c.x (wallWidth - envWidth) with hcase | hcase
        · rw [min_eq_left hcase, max_eq_right h0]
          linarith
        · rw [min_eq_right hcase]
          rcases le_total 0 (wallWidth - envWidth) with h₂ | h₂
          · rw [max_eq_right h₂]
            linarith
          · rw [max_eq_left (by linarith)]
            linarith
    · intro _
      simp
  · rw [hc] at hbest
    subst hbest
    simp only [candidateStrideOption]
    refine ⟨?_, ?_, ?_, ?_, ?_, ?_⟩
    · exact List.length_pos.mp hpos
    · intro c hcmem
      exact (attemptForCandidate_mem allWallBricks envWidth envHeight placed (ub :: rest) cx
        (bottomMostYOf (ub :: rest)) c hcmem).1
    · exact attemptForCandidate_pairwise allWallBricks envWidth envHeight placed (ub :: rest)
        cx (bottomMostYOf (ub :: rest))
    · intro j hj
      exact Or.inl (attemptForCandidate_supported allWallBricks envWidth envHeight placed
        (ub :: rest) cx (bottomMostYOf (ub :: rest)) j hj)
    · intro _ _ _ c hcmem
      obtain ⟨_, h₁, h₂, h₃, h₄⟩ := attemptForCandidate_mem allWallBricks envWidth envHeight
        placed (ub :: rest) cx (bottomMostYOf (ub :: rest)) c hcmem
      exact ⟨h₁, h₂, h₃, h₄⟩
    · intro hnd
      exact attempt_ids_nodup allWallBricks envWidth envHeight placed (ub :: rest) cx
        (bottomMostYOf (ub :: rest)) hnd

end Masonry

namespace Masonry

theorem singleton_of_length_one (l : List Brick) (h : l.length = 1) :
    ∀ (j : ℕ) (hj : j < l.length), l = [l[j]] := by
  obtain ⟨a, rfl⟩ := List.length_eq_one.mp h
  intro j hj
  have hj0 : j = 0 := by simpa using hj
  subst hj0
  rfl

/-- One committed iteration preserves the planner invariant: the commit is
non-empty, strictly grows the placed id set, and the extended output satisfies
`PlanInv` again. -/
theorem planStep_inv (allWallBricks : List Brick) (envWidth envHeight wallWidth : ℚ)
    (placed : List String) (strides : List Stride) (envs : List (ℕ × StrideMeta)) (ctr : ℕ)
    (hinv : PlanInv allWallBricks envWidth envHeight wallWidth placed strides envs ctr)
    (ub : Brick) (rest : List Brick)
    (hun : allWallBricks.filter (fun b => !placed.contains b.id) = ub :: rest)
    (best : StrideOption)
    (hbest : best = strideStepOption allWallBricks envWidth envHeight wallWidth placed
      (ub :: rest))
    (commit : List Brick) (hcommit : commit = commitStride best.bricks ctr) :
    0 < commit.length ∧
    placed.length < (addPlaced placed commit).length ∧
    PlanInv allWallBricks envWidth envHeight wallWidth (addPlaced placed commit)
      (strides ++ [commit])
      (envs ++ [(ctr, { minX := best.startX, minY := best.startY,
                        maxX := best.startX + envWidth,
                        maxY := best.startY + envHeight })])
      (ctr + 1) := by
  obtain ⟨hne, hsub, hpair, hsupp, hcont, hnodup⟩ :=
    strideStep_bricks_facts allWallBricks envWidth envHeight wallWidth placed ub rest best
      hbest
  subst hcommit
  have hctr : ctr = strides.length := hinv.ctr_eq
  have hsub_all : ∀ b ∈ ub :: rest, b ∈ allWallBricks ∧ ¬ b.id ∈ placed := by
    intro b hb
    have hb' : b ∈ allWallBricks.filter (fun b => !placed.contains b.id) := by
      rw [hun]
      exact hb
    exact (mem_unplaced_iff allWallBricks placed b).mp hb'
  have hfresh : ∀ c ∈ best.bricks, ¬ c.id ∈ placed := fun c hc => (hsub_all c (hsub c hc)).2
  have hin_all : ∀ c ∈ best.bricks, c ∈ allWallBricks := fun c hc => (hsub_all c (hsub c hc)).1
  have hone : 0 < (commitStride best.bricks ctr).length := by
    rw [commitStride_length]
    exact List.length_pos.mpr hne
  have hcommit_fresh : ∀ c ∈ commitStride best.bricks ctr, ¬ c.id ∈ placed := by
    intro c hc
    obtain ⟨j, hj, rfl⟩ := commitStride_mem best.bricks ctr c hc
    exact hfresh best.bricks[j] (List.getElem_mem hj)
  have hflatten : (strides ++ [commitStride best.bricks ctr]).flatten =
      strides.flatten ++ commitStride best.bricks ctr := by simp
  have hgrow : placed.length < (addPlaced placed (commitStride best.bricks ctr)).length := by
    obtain ⟨c, hc⟩ := List.exists_mem_of_ne_nil (commitStride best.bricks ctr)
      (List.length_pos.mp hone)
    exact addPlaced_length_lt (commitStride best.bricks ctr) placed c hc
      (hcommit_fresh c hc)
  refine ⟨hone, hgrow, ?_, ?_, ?_, ?_, ?_, ?_, ?_, ?_, ?_, ?_, ?_, ?_⟩
  · simp [hctr]
  · intro k
    rw [lookup_append]
    rcases hlook : envs.lookup k with _ | m
    · have hk : ¬ k < ctr := by
        have h₁ := hinv.env_keys k
        rw [hlook] at h₁
        simpa using h₁
      by_cases he : k = ctr
      · subst he
        simp [List.lookup]
      · have hbe : (k == ctr) = false := by simp [he]
        simp only [List.lookup, hbe]
        simp
        omega
    · have hk : k < ctr := by
        have h₁ := hinv.env_keys k
        rw [hlook] at h₁
        simpa using h₁
      simp
      omega
  · intro i
    rw [addPlaced_mem, hflatten, List.map_append, List.mem_append, hinv.placed_mem i]
  · exact addPlaced_nodup (commitStride best.bricks ctr) placed hinv.placed_nodup
  · intro i hi
    rcases (addPlaced_mem (commitStride best.bricks ctr) placed i).mp hi with h | h
    · exact hinv.placed_sub i h
    · obtain ⟨c, hc, rfl⟩ := List.mem_map.mp h
      obtain ⟨j, hj, rfl⟩ := commitStride_mem best.bricks ctr c hc
      show Brick.id best.bricks[j] ∈ List.map Brick.id allWallBricks
      exact List.mem_map_of_mem Brick.id (hin_all best.bricks[j] (List.getElem_mem hj))
  · intro s hs
    rcases List.mem_append.mp hs with h | h
    · exact hinv.strides_ne s h
    · rw [List.mem_singleton] at h
      subst h
      exact List.length_pos.mp hone
  · intro s hs
    rcases List.mem_append.mp hs with h | h
    · exact hinv.strides_sorted s h
    · rw [List.mem_singleton] at h
      subst h
      exact commitStride_pairwise best.bricks ctr hpair
  · intro k hk j hj
    rcases Nat.lt_succ_iff_lt_or_eq.mp (by simpa using hk) with hk' | hk'
    · have heq : (strides ++ [commitStride best.bricks ctr])[k] = strides[k] :=
        List.getElem_append_left hk'
      simp only [heq] at hj ⊢
      exact hinv.strides_idx k hk' j hj
    · subst hk'
      have heq : (strides ++ [commitStride best.bricks ctr])[strides.length] =
          commitStride best.bricks ctr :=
        List.getElem_concat_length strides (commitStride best.bricks ctr) strides.length rfl
          (by simp)
      simp only [heq] at hj ⊢
      have hj' : j < best.bricks.length := by
        rw [commitStride_length] at hj
        exact hj
      rw [commitStride_getElem best.bricks ctr j hj' hj]
      refine ⟨?_, rfl⟩
      show (ctr : ℤ) = (strides.length : ℤ)
      exact_mod_cast hctr
  · intro s hs c hc
    rcases List.mem_append.mp hs with h | h
    · exact hinv.origin s h c hc
    · rw [List.mem_singleton] at h
      subst h
      obtain ⟨j, hj, rfl⟩ := commitStride_mem best.bricks ctr c hc
      exact ⟨best.bricks[j], hin_all best.bricks[j] (List.getElem_mem hj), rfl, rfl, rfl,
        rfl, rfl⟩
  · intro k hk j hj
    rcases Nat.lt_succ_iff_lt_or_eq.mp (by simpa using hk) with hk' | hk'
    · have heq : (strides ++ [commitStride best.bricks ctr])[k] = strides[k] :=
        List.getElem_append_left hk'
      have htake : (strides ++ [commitStride best.bricks ctr]).take k = strides.take k :=
        List.take_append_of_le_length (le_of_lt hk')
      simp only [heq, htake] at hj ⊢
      exact hinv.support k hk' j hj
    · subst hk'
      have heq : (strides ++ [commitStride best.bricks ctr])[strides.length] =
          commitStride best.bricks ctr :=
        List.getElem_concat_length strides (commitStride best.bricks ctr) strides.length rfl
          (by simp)
      have htake : (strides ++ [commitStride best.bricks ctr]).take strides.length =
          strides :=
        List.take_left strides [commitStride best.bricks ctr]
      simp only [heq, htake] at hj ⊢
      have hj' : j < best.bricks.length := by
        rw [commitStride_length] at hj
        exact hj
      rcases hsupp j hj' with hsuppj | hsing
      · left
        rw [commitStride_getElem best.bricks ctr j hj' hj,
          isBrickSupported_congr best.bricks[j]
            { best.bricks[j] with strideIndex := (ctr : ℤ), orderInStride := (j : ℤ) }
            (strides.flatten.map Brick.id) placed
            ((commitStride best.bricks ctr).take j) (best.bricks.take j) allWallBricks
            ⟨rfl, rfl, rfl⟩ (fun i => (hinv.placed_mem i).symm)
            (commitStride_take_map_id best.bricks ctr j)]
        exact hsuppj
      · right
        have hclen : (commitStride best.bricks ctr).length = 1 := by
          rw [commitStride_length]
          simpa using congrArg List.length hsing
        exact singleton_of_length_one (commitStride best.bricks ctr) hclen j hj
  · intro HX HY k hk
    rcases Nat.lt_succ_iff_lt_or_eq.mp (by simpa using hk) with hk' | hk'
    · obtain ⟨m, hm, hmc⟩ := hinv.contain HX HY k hk'
      refine ⟨m, ?_, ?_⟩
      · rw [lookup_append, hm]
      · have heq : (strides ++ [commitStride best.bricks ctr])[k] = strides[k] :=
          List.getElem_append_left hk'
        rw [heq]
        exact hmc
    · subst hk'
      have hnone : envs.lookup strides.length = none := by
        rcases hl : envs.lookup strides.length with _ | m
        · rfl
        · exfalso
          have h₁ := (hinv.env_keys strides.length).mp (by rw [hl]; rfl)
          omega
      refine ⟨{ minX := best.startX, minY := best.startY, maxX := best.startX + envWidth,
                maxY := best.startY + envHeight }, ?_, ?_⟩
      · rw [lookup_append, hnone]
        have hbe : (strides.length == ctr) = true := by simp [hctr]
        simp [List.lookup, hbe]
      · have heq : (strides ++ [commitStride best.bricks ctr])[strides.length] =
            commitStride best.bricks ctr :=
          List.getElem_concat_length strides (commitStride best.bricks ctr) strides.length
            rfl (by simp)
        rw [heq]
        intro c hc
        obtain ⟨j, hj, rfl⟩ := commitStride_mem best.bricks ctr c hc
        exact hcont HX HY (fun b hb => (hsub_all b hb).1) best.bricks[j]
          (List.getElem_mem hj)
  · intro hnd
    have hnd_un : ((ub :: rest).map Brick.id).Nodup := by
      rw [← hun]
      exact hnd.sublist ((List.filter_sublist _).map Brick.id)
    have hnd_commit : ((commitStride best.bricks ctr).map Brick.id).Nodup := by
      rw [commitStride_map_id]
      exact hnodup hnd_un
    rw [addPlaced_eq_append (commitStride best.bricks ctr) placed hcommit_fresh hnd_commit,
      hinv.join_eq hnd, hflatten, List.map_append]

end Masonry

namespace Masonry

/-- Running the planner loop from an invariant state yields an invariant final
state together with one of the two loop-exit conditions, provided the budget
covers the number of bricks still to place (each iteration strictly grows the
placed id set, so the loop runs at most once per brick). -/
theorem planLoop_master (allWallBricks : List Brick) (envWidth envHeight wallWidth : ℚ) :
    ∀ (fuel : ℕ) (placed : List String) (strides : List Stride)
      (envs : List (ℕ × StrideMeta)) (ctr : ℕ),
      allWallBricks.length - placed.length ≤ fuel →
      PlanInv allWallBricks envWidth envHeight wallWidth placed strides envs ctr →
      ∃ (placed' : List String) (ctr' : ℕ),
        PlanInv allWallBricks envWidth envHeight wallWidth placed'
          (planLoop allWallBricks envWidth envHeight wallWidth fuel placed strides envs
            ctr).1
          (planLoop allWallBricks envWidth envHeight wallWidth fuel placed strides envs
            ctr).2
          ctr' ∧
        (allWallBricks.length ≤ placed'.length ∨
          allWallBricks.filter (fun b => !placed'.contains b.id) = []) := by
  intro fuel
  induction fuel with
  | zero =>
    intro placed strides envs ctr hfuel hinv
    refine ⟨placed, ctr, ?_, Or.inl ?_⟩
    · simpa [planLoop] using hinv
    · omega
  | succ n ih =>
    intro placed strides envs ctr hfuel hinv
    by_cases hlt : placed.length < allWallBricks.length
    · rcases hun : allWallBricks.filter (fun b => !placed.contains b.id) with _ | ⟨ub, rest⟩
      · refine ⟨placed, ctr, ?_, Or.inr hun⟩
        simp only [planLoop, if_pos hlt, hun, List.length_nil]
        simpa using hinv
      · obtain ⟨hone, hgrow, hinv'⟩ := planStep_inv allWallBricks envWidth envHeight
          wallWidth placed strides envs ctr hinv ub rest hun _ rfl _ rfl
        simp only [planLoop, if_pos hlt, hun]
        rw [if_neg (by simp)]
        rw [if_pos hone]
        exact ih _ _ _ _ (by omega) hinv'
    · refine ⟨placed, ctr, ?_, Or.inl (not_lt.mp hlt)⟩
      simp only [planLoop, if_neg hlt]
      exact hinv

end Masonry

namespace Masonry

/-- Each committed iteration makes strict progress: the commit is non-empty
and the placed id set strictly grows (no invariant needed). -/
theorem planStep_progress (allWallBricks : List Brick) (envWidth envHeight wallWidth : ℚ)
    (placed : List String) (ctr : ℕ) (ub : Brick) (rest : List Brick)
    (hun : allWallBricks.filter (fun b => !placed.contains b.id) = ub :: rest) :
    0 < (commitStride (strideStepOption allWallBricks envWidth envHeight wallWidth placed
      (ub :: rest)).bricks ctr).length ∧
    placed.length < (addPlaced placed (commitStride (strideStepOption allWallBricks envWidth
      envHeight wallWidth placed (ub :: rest)).bricks ctr)).length := by
  obtain ⟨hne, hsub, _, _, _, _⟩ :=
    strideStep_bricks_facts allWallBricks envWidth envHeight wallWidth placed ub rest _ rfl
  have hfresh : ∀ c ∈ (strideStepOption allWallBricks envWidth envHeight wallWidth placed
      (ub :: rest)).bricks, ¬ c.id ∈ placed := by
    intro c hc
    have hc' : c ∈ allWallBricks.filter (fun b => !placed.contains b.id) := by
      rw [hun]
      exact hsub c hc
    exact ((mem_unplaced_iff allWallBricks placed c).mp hc').2
  have hone : 0 < (commitStride (strideStepOption allWallBricks envWidth envHeight wallWidth
      placed (ub :: rest)).bricks ctr).length := by
    rw [commitStride_length]
    exact List.length_pos.mpr hne
  refine ⟨hone, ?_⟩
  obtain ⟨c, hc⟩ := List.exists_mem_of_ne_nil _ (List.length_pos.mp hone)
  refine addPlaced_length_lt _ placed c hc ?_
  obtain ⟨j, hj, heq⟩ := commitStride_mem _ ctr c hc
  rw [heq]
  show ¬ (strideStepOption allWallBricks envWidth envHeight wallWidth placed
      (ub :: rest)).bricks[j].id ∈ placed
  exact hfresh _ (List.getElem_mem hj)

/-- Budget irrelevance for the planner loop: any two budgets at least the
number of still-unplaced bricks yield the same result — the `while` loop runs
at most `allWallBricks.length` iterations. -/
theorem planLoop_fuel_irrel (allWallBricks : List Brick) (envWidth envHeight wallWidth : ℚ) :
    ∀ (fuel₁ fuel₂ : ℕ) (placed : List String) (strides : List Stride)
      (envs : List (ℕ × StrideMeta)) (ctr : ℕ),
      allWallBricks.length - placed.length ≤ fuel₁ →
      allWallBricks.length - placed.length ≤ fuel₂ →
      planLoop allWallBricks envWidth envHeight wallWidth fuel₁ placed strides envs ctr =
        planLoop allWallBricks envWidth envHeight wallWidth fuel₂ placed strides envs ctr := by
  intro fuel₁
  induction fuel₁ with
  | zero =>
    intro fuel₂ placed strides envs ctr h₁ h₂
    have hge : ¬ placed.length < allWallBricks.length := by omega
    cases fuel₂ with
    | zero => rfl
    | succ m =>
      simp only [planLoop, if_neg hge]
  | succ n ih =>
    intro fuel₂ placed strides envs ctr h₁ h₂
    by_cases hlt : placed.length < allWallBricks.length
    · cases fuel₂ with
      | zero => omega
      | succ m =>
        rcases hun : allWallBricks.filter (fun b => !placed.contains b.id) with _ | ⟨ub, rest⟩
        · simp only [planLoop, if_pos hlt, hun, List.length_nil]
          simp
        · obtain ⟨hone, hgrow⟩ := planStep_progress allWallBricks envWidth envHeight
            wallWidth placed ctr ub rest hun
          simp only [planLoop, if_pos hlt, hun]
          have hlen0 : ¬ ((ub :: rest).length = 0) := by simp
          simp only [if_neg hlen0, if_pos hone]
          refine ih m _ _ _ _ ?_ ?_
          · omega
          · omega
    · cases fuel₂ with
      | zero => simp only [planLoop, if_neg hlt]
      | succ m => simp only [planLoop, if_neg hlt]

end Masonry

namespace Masonry

/-- C10: structure of the planner's output, for every input brick list: each
stride in the returned list is non-empty; the envelope record has an entry for
every stride index; within each stride the bricks are in (y ascending, then x
ascending) order (`admissionOrder`); each brick's `strideIndex` equals the
index of its containing stride and its `orderInStride` equals its position in
that stride. -/
theorem C10_output_structure (allWallBricks : List Brick)
    (envWidth envHeight wallWidth : ℚ) :
    ∀ (k : ℕ)
      (hk : k < (calculateWallStrides allWallBricks envWidth envHeight wallWidth).1.length),
      (calculateWallStrides allWallBricks envWidth envHeight wallWidth).1[k] ≠ [] ∧
      ((calculateWallStrides allWallBricks envWidth envHeight wallWidth).2.lookup k).isSome ∧
      ((calculateWallStrides allWallBricks envWidth envHeight wallWidth).1[k]).Pairwise
        admissionOrder ∧
      ∀ (j : ℕ)
        (hj : j <
          (calculateWallStrides allWallBricks envWidth envHeight wallWidth).1[k].length),
        ((calculateWallStrides allWallBricks envWidth envHeight
            wallWidth).1[k][j]).strideIndex = (k : ℤ) ∧
        ((calculateWallStrides allWallBricks envWidth envHeight
            wallWidth).1[k][j]).orderInStride = (j : ℤ) := by
  obtain ⟨p', c', hinv, _⟩ := planLoop_master allWallBricks envWidth envHeight wallWidth
    allWallBricks.length [] [] [] 0 (by simp) (planInv_init allWallBricks envWidth envHeight
      wallWidth)
  intro k hk
  have hk' : k < (planLoop allWallBricks envWidth envHeight wallWidth allWallBricks.length
      [] [] [] 0).1.length := hk
  have hctr := hinv.ctr_eq
  refine ⟨hinv.strides_ne _ (List.getElem_mem hk'), ?_,
    hinv.strides_sorted _ (List.getElem_mem hk'), hinv.strides_idx k hk'⟩
  exact (hinv.env_keys k).mpr (by omega)

/-- C10 witness: a one-brick wall; stride 0 exists and has an envelope
entry. -/
theorem C10_witness :
    ((calculateWallStrides [⟨0, 0, BrickType.full, 210, -1, -1, "b"⟩] 800 1300
      2300).2.lookup 0).isSome = true := by
  have h := C10_output_structure [⟨0, 0, BrickType.full, 210, -1, -1, "b"⟩] 800 1300 2300 0
    (by
      norm_num [calculateWallStrides, planLoop, strideStepOption, candidateStrideOption,
        attemptForCandidate, reachableBricks, isBrickSupported, isSupportCandidate,
        candidateRobotStartXPositions, bottomMostYOf, setAdd, commitStride, addPlaced,
        COURSE_HEIGHT, BRICK_HEIGHT, List.insertionSort, List.orderedInsert, List.enum,
        List.enumFrom, ratOrder, admissionOrder, supportOrder])
  exact h.2.1

/-- C1: completeness and termination of the planner. For any input brick list
with pairwise-distinct ids, the multiset of brick ids across all returned
strides is exactly the multiset of input ids (every brick is committed to
exactly one stride, exactly once, no duplicates or omissions); moreover the
loop needs at most one iteration per brick: any budget of at least
`allWallBricks.length` iterations gives the same (completed) result, which is
the termination bound claimed for the `while` loop. -/
theorem C1_completeness (allWallBricks : List Brick) (envWidth envHeight wallWidth : ℚ)
    (hnodup : (allWallBricks.map Brick.id).Nodup) :
    ((calculateWallStrides allWallBricks envWidth envHeight wallWidth).1.flatten.map
      Brick.id).Perm (allWallBricks.map Brick.id) ∧
    ∀ fuel : ℕ, allWallBricks.length ≤ fuel →
      planLoop allWallBricks envWidth envHeight wallWidth fuel [] [] [] 0 =
        calculateWallStrides allWallBricks envWidth envHeight wallWidth := by
  constructor
  · obtain ⟨p', c', hinv, hexit⟩ := planLoop_master allWallBricks envWidth envHeight
      wallWidth allWallBricks.length [] [] [] 0 (by simp)
      (planInv_init allWallBricks envWidth envHeight wallWidth)
    have hjoin := hinv.join_eq hnodup
    have hsubp : p'.Subperm (allWallBricks.map Brick.id) :=
      List.Nodup.subperm hinv.placed_nodup (fun i hi => hinv.placed_sub i hi)
    have hperm : p'.Perm (allWallBricks.map Brick.id) := by
      rcases hexit with hlen | hempty
      · refine List.Subperm.perm_of_length_le hsubp ?_
        rw [List.length_map]
        exact hlen
      · refine hsubp.antisymm (List.Nodup.subperm hnodup ?_)
        intro i hi
        obtain ⟨b, hb, rfl⟩ := List.mem_map.mp hi
        by_contra hni
        have hcb : p'.contains b.id = false := by
          cases hcb' : p'.contains b.id
          · rfl
          · exact absurd ((contains_iff_mem _ _).mp hcb') hni
        have hmem : b ∈ allWallBricks.filter (fun b => !p'.contains b.id) := by
          rw [List.mem_filter, hcb]
          exact ⟨hb, rfl⟩
        rw [hempty] at hmem
        cases hmem
    exact hjoin ▸ hperm
  · intro fuel hfuel
    exact planLoop_fuel_irrel allWallBricks envWidth envHeight wallWidth fuel
      allWallBricks.length [] [] [] 0 (by simpa using hfuel) (by simp)

/-- C1 witness: a one-brick wall; the output ids are a permutation of the
input ids and budget 5 already reproduces the run. -/
theorem C1_witness :
    ((calculateWallStrides [⟨0, 0, BrickType.full, 210, -1, -1, "b"⟩] 800 1300
        2300).1.flatten.map Brick.id).Perm
      (([⟨0, 0, BrickType.full, 210, -1, -1, "b"⟩] : List Brick).map Brick.id) ∧
    planLoop [⟨0, 0, BrickType.full, 210, -1, -1, "b"⟩] 800 1300 2300 5 [] [] [] 0 =
      calculateWallStrides [⟨0, 0, BrickType.full, 210, -1, -1, "b"⟩] 800 1300 2300 := by
  have h := C1_completeness [⟨0, 0, BrickType.full, 210, -1, -1, "b"⟩] 800 1300 2300
    (by simp)
  exact ⟨h.1, h.2 5 (by norm_num)⟩

end Masonry

namespace Masonry

/-- C2 (amended): every committed brick either passes the support test —
computed only from bricks committed strictly earlier (strides of lower index,
and within its own stride the bricks admitted before it) — or is the sole
brick of its stride (the forced fallback commit, which is exempt from the
support test; see `C2_counterexample_fallback_unsupported`). Course-0 bricks
pass trivially since `isBrickSupported` returns `true` for `y = 0`. -/
theorem C2_support_at_commit (allWallBricks : List Brick)
    (envWidth envHeight wallWidth : ℚ) :
    ∀ (k : ℕ)
      (hk : k < (calculateWallStrides allWallBricks envWidth envHeight wallWidth).1.length)
      (j : ℕ)
      (hj : j <
        (calculateWallStrides allWallBricks envWidth envHeight wallWidth).1[k].length),
      isBrickSupported
        ((calculateWallStrides allWallBricks envWidth envHeight wallWidth).1[k][j])
        (((calculateWallStrides allWallBricks envWidth envHeight
          wallWidth).1.take k).flatten.map Brick.id)
        ((calculateWallStrides allWallBricks envWidth envHeight wallWidth).1[k].take j)
        allWallBricks = true ∨
      (calculateWallStrides allWallBricks envWidth envHeight wallWidth).1[k] =
        [(calculateWallStrides allWallBricks envWidth envHeight wallWidth).1[k][j]] := by
  obtain ⟨p', c', hinv, _⟩ := planLoop_master allWallBricks envWidth envHeight wallWidth
    allWallBricks.length [] [] [] 0 (by simp)
    (planInv_init allWallBricks envWidth envHeight wallWidth)
  intro k hk
  have hk' : k < (planLoop allWallBricks envWidth envHeight wallWidth allWallBricks.length
      [] [] [] 0).1.length := hk
  exact hinv.support k hk'

/-- C2 counterexample: a single brick at course 1 with nothing beneath it is
committed by the fallback even though its support total (0) is far below
`0.9 * 210`: the committed brick has `y = 62.5 ≠ 0` and fails the support test
against the (empty) set of earlier-committed bricks. -/
theorem C2_counterexample_fallback_unsupported :
    (calculateWallStrides [⟨0, 62.5, BrickType.full, 210, -1, -1, "b"⟩] 800 1300 2300).1 =
      [[⟨0, 62.5, BrickType.full, 210, 0, 0, "b"⟩]] ∧
    isBrickSupported ⟨0, 62.5, BrickType.full, 210, 0, 0, "b"⟩ [] []
      [⟨0, 62.5, BrickType.full, 210, -1, -1, "b"⟩] = false ∧
    ¬ ((62.5 : ℚ) = 0) := by
  refine ⟨?_, ?_, by norm_num⟩
  · norm_num [calculateWallStrides, planLoop, strideStepOption, candidateStrideOption,
      attemptForCandidate, reachableBricks, isBrickSupported, isSupportCandidate,
      candidateRobotStartXPositions, bottomMostYOf, setAdd, commitStride, addPlaced,
      COURSE_HEIGHT, BRICK_HEIGHT, List.insertionSort, List.orderedInsert, List.enum,
      List.enumFrom, ratOrder, admissionOrder, supportOrder]
  · norm_num [isBrickSupported, isSupportCandidate, COURSE_HEIGHT, List.insertionSort,
      List.orderedInsert, supportOrder]

/-- C2 witness: a one-brick course-0 wall; the committed brick passes the
support test against the earlier-committed bricks (trivially, `y = 0`). -/
theorem C2_witness :
    isBrickSupported ⟨0, 0, BrickType.full, 210, 0, 0, "b"⟩ [] []
      [⟨0, 0, BrickType.full, 210, -1, -1, "b"⟩] = true := by
  have hout : (calculateWallStrides [⟨0, 0, BrickType.full, 210, -1, -1, "b"⟩] 800 1300
      2300).1 = [[⟨0, 0, BrickType.full, 210, 0, 0, "b"⟩]] := by
    norm_num [calculateWallStrides, planLoop, strideStepOption, candidateStrideOption,
      attemptForCandidate, reachableBricks, isBrickSupported, isSupportCandidate,
      candidateRobotStartXPositions, bottomMostYOf, setAdd, commitStride, addPlaced,
      COURSE_HEIGHT, BRICK_HEIGHT, List.insertionSort, List.orderedInsert, List.enum,
      List.enumFrom, ratOrder, admissionOrder, supportOrder]
  have h := C2_support_at_commit [⟨0, 0, BrickType.full, 210, -1, -1, "b"⟩] 800 1300 2300 0
    (by rw [hout]; norm_num) 0 (by simp [hout])
  simp only [hout] at h
  simpa using h.elim (fun h₁ => h₁) (fun _ => by
    norm_num [isBrickSupported, COURSE_HEIGHT])

/-- C3 (amended): provided every input brick lies inside the wall
(`0 ≤ x` and `x + length ≤ wallWidth`) and fits the envelope
(`length ≤ envWidth`, `BRICK_HEIGHT ≤ envHeight`), every stride's bricks lie
fully inside that stride's recorded envelope rectangle. Without these
conditions the forced fallback can commit a brick that overflows its envelope
(see `C3_counterexample_oversized_brick`). -/
theorem C3_envelope_containment (allWallBricks : List Brick)
    (envWidth envHeight wallWidth : ℚ)
    (HX : ∀ b ∈ allWallBricks, 0 ≤ b.x ∧ b.x + b.length ≤ wallWidth ∧ b.length ≤ envWidth)
    (HY : BRICK_HEIGHT ≤ envHeight) :
    ∀ (k : ℕ)
      (hk : k < (calculateWallStrides allWallBricks envWidth envHeight wallWidth).1.length),
      ∃ m : StrideMeta,
        (calculateWallStrides allWallBricks envWidth envHeight wallWidth).2.lookup k =
          some m ∧
        ∀ c ∈ (calculateWallStrides allWallBricks envWidth envHeight wallWidth).1[k],
          m.minX ≤ c.x ∧ c.x + c.length ≤ m.maxX ∧
          m.minY ≤ c.y ∧ c.y + BRICK_HEIGHT ≤ m.maxY := by
  obtain ⟨p', c', hinv, _⟩ := planLoop_master allWallBricks envWidth envHeight wallWidth
    allWallBricks.length [] [] [] 0 (by simp)
    (planInv_init allWallBricks envWidth envHeight wallWidth)
  intro k hk
  have hk' : k < (planLoop allWallBricks envWidth envHeight wallWidth allWallBricks.length
      [] [] [] 0).1.length := hk
  exact hinv.contain HX HY k hk'

/-- C3 counterexample: a single 210mm brick with a 100mm-wide envelope: no
candidate can contain it, the fallback commits it anyway, and the recorded
envelope `[0,100] × [0,1300]` does not contain the brick's span `[0,210]`. -/
theorem C3_counterexample_oversized_brick :
    calculateWallStrides [⟨0, 0, BrickType.full, 210, -1, -1, "b"⟩] 100 1300 210 =
      ([[⟨0, 0, BrickType.full, 210, 0, 0, "b"⟩]],
       [(0, { minX := 0, minY := 0, maxX := 100, maxY := 1300 })]) ∧
    ¬ ((0 : ℚ) + 210 ≤ 100) := by
  refine ⟨?_, by norm_num⟩
  norm_num [calculateWallStrides, planLoop, strideStepOption, candidateStrideOption,
    attemptForCandidate, reachableBricks, isBrickSupported, isSupportCandidate,
    candidateRobotStartXPositions, bottomMostYOf, setAdd, commitStride, addPlaced,
    COURSE_HEIGHT, BRICK_HEIGHT, List.insertionSort, List.orderedInsert, List.enum,
    List.enumFrom, ratOrder, admissionOrder, supportOrder]

/-- C3 witness: a one-brick wall that satisfies the wall/envelope conditions;
stride 0's envelope entry exists (and contains its brick, by the theorem). -/
theorem C3_witness :
    ((calculateWallStrides [⟨0, 0, BrickType.full, 210, -1, -1, "b"⟩] 800 1300
      2300).2.lookup 0).isSome = true := by
  have h := C3_envelope_containment [⟨0, 0, BrickType.full, 210, -1, -1, "b"⟩] 800 1300 2300
    (by
      intro b hb
      rw [List.mem_singleton] at hb
      subst hb
      norm_num)
    (by norm_num [BRICK_HEIGHT]) 0
    (by
      norm_num [calculateWallStrides, planLoop, strideStepOption, candidateStrideOption,
        attemptForCandidate, reachableBricks, isBrickSupported, isSupportCandidate,
        candidateRobotStartXPositions, bottomMostYOf, setAdd, commitStride, addPlaced,
        COURSE_HEIGHT, BRICK_HEIGHT, List.insertionSort, List.orderedInsert, List.enum,
        List.enumFrom, ratOrder, admissionOrder, supportOrder])
  obtain ⟨m, hm, _⟩ := h
  rw [hm]
  rfl

/-- C9 (amended): the planner never installs its results in the input bricks —
it commits shallow copies. For sentinel-initialised input with distinct ids:
every brick in the output strides agrees with exactly one input brick on
`x, y, type, length, id`, that input brick still carries the sentinels, the
output copy carries a non-sentinel (non-negative) `strideIndex` and
`orderInStride`, and no id is committed twice (each brick is committed exactly
once). The original claim that the input objects themselves end up mutated is
refuted by `C9_counterexample_commits_copies`. -/
theorem C9_commit_copies (allWallBricks : List Brick) (envWidth envHeight wallWidth : ℚ)
    (hnodup : (allWallBricks.map Brick.id).Nodup)
    (hsent : ∀ b ∈ allWallBricks, b.strideIndex = -1 ∧ b.orderInStride = -1) :
    (∀ s ∈ (calculateWallStrides allWallBricks envWidth envHeight wallWidth).1, ∀ c ∈ s,
      (∃ b ∈ allWallBricks, b.x = c.x ∧ b.y = c.y ∧ b.type = c.type ∧
        b.length = c.length ∧ b.id = c.id ∧ b.strideIndex = -1 ∧ b.orderInStride = -1) ∧
      0 ≤ c.strideIndex ∧ 0 ≤ c.orderInStride) ∧
    ((calculateWallStrides allWallBricks envWidth envHeight wallWidth).1.flatten.map
      Brick.id).Nodup := by
  obtain ⟨p', c', hinv, _⟩ := planLoop_master allWallBricks envWidth envHeight wallWidth
    allWallBricks.length [] [] [] 0 (by simp)
    (planInv_init allWallBricks envWidth envHeight wallWidth)
  constructor
  · intro s hs c hc
    have hs' : s ∈ (planLoop allWallBricks envWidth envHeight wallWidth
        allWallBricks.length [] [] [] 0).1 := hs
    constructor
    · obtain ⟨b, hb, h₁, h₂, h₃, h₄, h₅⟩ := hinv.origin s hs' c hc
      obtain ⟨h₆, h₇⟩ := hsent b hb
      exact ⟨b, hb, h₁, h₂, h₃, h₄, h₅, h₆, h₇⟩
    · obtain ⟨k, hk, rfl⟩ := List.mem_iff_getElem.mp hs'
      obtain ⟨j, hj, rfl⟩ := List.mem_iff_getElem.mp hc
      obtain ⟨hidx, hord⟩ := hinv.strides_idx k hk j hj
      rw [hidx, hord]
      exact ⟨Int.natCast_nonneg k, Int.natCast_nonneg j⟩
  · have hjoin := hinv.join_eq hnodup
    exact hjoin ▸ hinv.placed_nodup

/-- C9 counterexample: the planner's output brick is a modified copy that is
not an element of the input list; the input list's brick (the embedding is a
pure function, so the input is unchanged) still carries the sentinel `-1`
stride fields after the call, contradicting the claim that the input brick
objects are overwritten with their final assignments. -/
theorem C9_counterexample_commits_copies :
    (calculateWallStrides [⟨0, 0, BrickType.full, 210, -1, -1, "b"⟩] 800 1300 2300).1 =
      [[⟨0, 0, BrickType.full, 210, 0, 0, "b"⟩]] ∧
    ¬ ((⟨0, 0, BrickType.full, 210, 0, 0, "b"⟩ : Brick) ∈
        ([⟨0, 0, BrickType.full, 210, -1, -1, "b"⟩] : List Brick)) ∧
    (⟨0, 0, BrickType.full, 210, -1, -1, "b"⟩ : Brick).strideIndex = -1 := by
  refine ⟨?_, by decide, rfl⟩
  norm_num [calculateWallStrides, planLoop, strideStepOption, candidateStrideOption,
    attemptForCandidate, reachableBricks, isBrickSupported, isSupportCandidate,
    candidateRobotStartXPositions, bottomMostYOf, setAdd, commitStride, addPlaced,
    COURSE_HEIGHT, BRICK_HEIGHT, List.insertionSort, List.orderedInsert, List.enum,
    List.enumFrom, ratOrder, admissionOrder, supportOrder]

/-- C9 witness: one-brick wall with sentinel fields and distinct ids; the
output commits each id exactly once. -/
theorem C9_witness :
    ((calculateWallStrides [⟨0, 0, BrickType.full, 210, -1, -1, "b"⟩] 800 1300
      2300).1.flatten.map Brick.id).Nodup := by
  have h := C9_commit_copies [⟨0, 0, BrickType.full, 210, -1, -1, "b"⟩] 800 1300 2300
    (by simp)
    (by
      intro b hb
      rw [List.mem_singleton] at hb
      subst hb
      exact ⟨rfl, rfl⟩)
  exact h.2

end Masonry
